import Mathlib

/-!
Verification development for the pure_eval repository: a side-effect-free
partial evaluator for Python expression trees.

The development shallowly embeds the three source modules:

* pure_eval/utils.py       : safety predicates (safe_hash_key, of_type, is_any)
  and copy_ast_without_context;
* pure_eval/my_getattr_static.py : the static attribute resolver, modelled over
  an explicit object world (class hierarchies, descriptors, instance
  dictionaries);
* pure_eval/core.py        : the Evaluator (memoised getitem, the handle
  dispatch and its per-node-kind handlers) and group_expressions.

Machine integers do not occur (Python integers are unbounded), so numbers are
Int and Rat.  Python exceptions are an explicit Fail type; CannotEval is one of
its constructors.  Recursive evaluation is written with an explicit fuel
parameter (structural recursion on Nat) so that every definition is executable
and concrete runs reduce by rfl; fuel exhaustion is a separate Fail
constructor that adequate fuel never produces.
-/

namespace PureEval

/-! ## Expression trees (the ast.expr fragment the evaluator consumes)

Nodes carry a meta field m : Nat standing for the identity of the node object
(distinct parsed nodes have distinct m), which is also what the source memo
table is keyed by, since Python dictionaries key ast nodes by object identity.
Role annotations (ast.Load / Store / Del) are the ctx fields.  Source
positions (lineno, col_offset) are attributes, not child fields, of ast nodes;
they are ignored by ast.dump and never read by the evaluator, so they are
subsumed in the m field.  Following the Python 3.8 era compatibility branches
in the source, a subscript index is either a plain expression, a slice node or
the legacy extended slice marker. -/

inductive Ctx where
  | load
  | store
  | del
deriving DecidableEq

inductive UnOp where
  | usub
  | uadd
  | notOp
  | invert
deriving DecidableEq

inductive BinK where
  | addK
  | subK
  | multK
  | divK
  | floorDivK
  | modK
  | powK
  | lshiftK
  | rshiftK
  | bitOrK
  | bitXorK
  | bitAndK
  | matMultK
deriving DecidableEq

inductive BoolK where
  | orK
  | andK
deriving DecidableEq

/-- Constant literals (the payload of ast.Constant). -/
inductive Lit where
  | intL (n : Int)
  | floatL (q : Rat)
  | complexL (re im : Rat)
  | strL (s : List Char)
  | bytesL (b : List Nat)
  | boolL (b : Bool)
  | noneL
deriving DecidableEq

inductive Expr where
  | constant (v : Lit) (m : Nat)
  | nameE (id : String) (ctx : Ctx) (m : Nat)
  | attributeE (value : Expr) (attr : String) (ctx : Ctx) (m : Nat)
  | subscript (value : Expr) (idx : Expr) (ctx : Ctx) (m : Nat)
  | sliceE (lower upper step : Option Expr) (m : Nat)
  | extSliceE (m : Nat)
  | listE (elts : List Expr) (ctx : Ctx) (m : Nat)
  | tupleE (elts : List Expr) (ctx : Ctx) (m : Nat)
  | setE (elts : List Expr) (m : Nat)
  | dictE (keys : List (Option Expr)) (vals : List Expr) (m : Nat)
  | unaryOp (op : UnOp) (operand : Expr) (m : Nat)
  | binOp (left : Expr) (op : BinK) (right : Expr) (m : Nat)
  | boolOp (op : BoolK) (first : Expr) (rest : List Expr) (m : Nat)
  | call (func : Expr) (args : List Expr) (kwords : List (Option String × Expr)) (m : Nat)
  | starred (value : Expr) (ctx : Ctx) (m : Nat)
  | unsupportedE (m : Nat)

/-- The identity of a node: the memo table key. -/
def Expr.uid : Expr → Nat
  | .constant _ m => m
  | .nameE _ _ m => m
  | .attributeE _ _ _ m => m
  | .subscript _ _ _ m => m
  | .sliceE _ _ _ m => m
  | .extSliceE m => m
  | .listE _ _ m => m
  | .tupleE _ _ m => m
  | .setE _ m => m
  | .dictE _ _ m => m
  | .unaryOp _ _ m => m
  | .binOp _ _ _ m => m
  | .boolOp _ _ _ m => m
  | .call _ _ _ m => m
  | .starred _ _ m => m
  | .unsupportedE m => m

/-! ## Runtime values

A closed universe of the Python values the evaluator manipulates.  objV oid
is an instance of a user-defined class, opaque to the evaluator except through
the attribute-resolution world; typeV cid is a plain class object (its
metaclass is type itself, which is what safe_hash_key tests for);
builtinV is a built-in function object. -/

inductive BuiltinF where
  | lenB
  | absB
  | intB
  | floatB
  | boolB
  | tupleB
  | rangeB
  | sliceB
  | sumB
  | minB
  | maxB
  | printB
deriving DecidableEq

inductive Val where
  | intV (n : Int)
  | boolV (b : Bool)
  | floatV (q : Rat)
  | complexV (re im : Rat)
  | strV (s : List Char)
  | bytesV (b : List Nat)
  | bytearrayV (b : List Nat)
  | noneV
  | listV (xs : List Val)
  | tupleV (xs : List Val)
  | setV (xs : List Val)
  | frozensetV (xs : List Val)
  | dictV (entries : List (Val × Val))
  | rangeV (start stop step : Int)
  | sliceV (lower upper step : Option Val)
  | builtinV (b : BuiltinF)
  | typeV (cid : Nat)
  | objV (oid : Nat)

/-- Exact runtime types, for the identity-based type tests of utils.is_any. -/
inductive Ty where
  | intT
  | boolT
  | floatT
  | complexT
  | strT
  | bytesT
  | bytearrayT
  | noneT
  | listT
  | tupleT
  | setT
  | frozensetT
  | dictT
  | rangeT
  | sliceT
  | builtinT
  | typeT
  | objT
deriving DecidableEq

def Val.ty : Val → Ty
  | .intV _ => .intT
  | .boolV _ => .boolT
  | .floatV _ => .floatT
  | .complexV _ _ => .complexT
  | .strV _ => .strT
  | .bytesV _ => .bytesT
  | .bytearrayV _ => .bytearrayT
  | .noneV => .noneT
  | .listV _ => .listT
  | .tupleV _ => .tupleT
  | .setV _ => .setT
  | .frozensetV _ => .frozensetT
  | .dictV _ => .dictT
  | .rangeV _ _ _ => .rangeT
  | .sliceV _ _ _ => .sliceT
  | .builtinV _ => .builtinT
  | .typeV _ => .typeT
  | .objV _ => .objT

/-- Python exceptions, as the evaluator can observe them.  cannotEval is the
purity-failure signal CannotEval of utils.py; the others are ordinary Python
exceptions.  fuelOut is the artifact of the explicit fuel and corresponds to
no source behaviour; adequate fuel never yields it. -/
inductive Fail where
  | cannotEval
  | typeError
  | attrError
  | valueError
  | fuelOut
deriving DecidableEq

/-- utils.is_any restricted to type objects: is the exact type one of the
candidates (identity comparison, no subclass check). -/
def is_any (t : Ty) (args : List Ty) : Bool :=
  args.any (fun a => t = a)

/-- utils.of_type: return the value if its exact type is one of the allowed
types, otherwise raise CannotEval. -/
def of_type (x : Val) (types : List Ty) : Except Fail Val :=
  if is_any x.ty types then .ok x else .error .cannotEval

/-- Length of the Python value, for the values that have one. -/
def range_len (start stop step : Int) : Nat :=
  if 0 < step then (if start < stop then ((stop - start - 1) / step).toNat + 1 else 0)
  else if step < 0 then (if stop < start then ((start - stop - 1) / (-step)).toNat + 1 else 0)
  else 0

def py_len : Val → Option Nat
  | .strV s => some s.length
  | .bytesV b => some b.length
  | .bytearrayV b => some b.length
  | .listV xs => some xs.length
  | .tupleV xs => some xs.length
  | .setV xs => some xs.length
  | .frozensetV xs => some xs.length
  | .dictV es => some es.length
  | .rangeV a b c => some (range_len a b c)
  | _ => none

/-- Python truthiness for the modelled universe.  Objects of user-defined
classes without a custom truth hook are truthy, which is the Python default;
the evaluator only ever converts values to booleans after an of_type check
against types with well-known truthiness. -/
def truthy : Val → Bool
  | .intV n => n ≠ 0
  | .boolV b => b
  | .floatV q => q ≠ 0
  | .complexV re im => ¬(re = 0 ∧ im = 0)
  | .strV s => ¬s.isEmpty
  | .bytesV b => ¬b.isEmpty
  | .bytearrayV b => ¬b.isEmpty
  | .noneV => false
  | .listV xs => ¬xs.isEmpty
  | .tupleV xs => ¬xs.isEmpty
  | .setV xs => ¬xs.isEmpty
  | .frozensetV xs => ¬xs.isEmpty
  | .dictV es => ¬es.isEmpty
  | .rangeV a b c => range_len a b c ≠ 0
  | .sliceV _ _ _ => true
  | .builtinV _ => true
  | .typeV _ => true
  | .objV _ => true

/-- The numeric view of a value: Python compares int, bool, float and complex
across kinds by numeric value (1 == True == 1.0 == 1+0j). -/
def num_view : Val → Option (Rat × Rat)
  | .intV n => some ((n : Rat), 0)
  | .boolV b => some (if b then 1 else 0, 0)
  | .floatV q => some (q, 0)
  | .complexV re im => some (re, im)
  | _ => none

/-! ### Python equality

Equality as the == of the built-in types, used for dictionary and set
membership.  The recursion is driven by an explicit fuel so that the
definitions stay executable by kernel reduction; every recursive call strictly
decreases both the fuel and the total size of the compared values, so any fuel
at least the combined size of the arguments is adequate.  Callers inside the
evaluator pass the evaluator fuel through. -/

/-- Python range equality: two ranges are equal when they describe the same
sequence (equal lengths; if nonempty equal starts; if longer than one equal
steps). -/
def range_eq (a1 b1 c1 a2 b2 c2 : Int) : Bool :=
  let n1 := range_len a1 b1 c1
  let n2 := range_len a2 b2 c2
  if n1 ≠ n2 then false
  else if n1 = 0 then true
  else if a1 ≠ a2 then false
  else if n1 = 1 then true
  else c1 = c2

mutual

def py_eq : Nat → Val → Val → Bool
  | 0, _, _ => false
  | fuel + 1, a, b =>
    match num_view a, num_view b with
    | some x, some y => x = y
    | _, _ =>
      match a, b with
      | .strV s, .strV t => s = t
      | .bytesV s, .bytesV t => s = t
      | .bytesV s, .bytearrayV t => s = t
      | .bytearrayV s, .bytesV t => s = t
      | .bytearrayV s, .bytearrayV t => s = t
      | .noneV, .noneV => true
      | .listV xs, .listV ys => py_eq_list fuel xs ys
      | .tupleV xs, .tupleV ys => py_eq_list fuel xs ys
      | .setV xs, .setV ys => py_eq_set fuel xs ys
      | .setV xs, .frozensetV ys => py_eq_set fuel xs ys
      | .frozensetV xs, .setV ys => py_eq_set fuel xs ys
      | .frozensetV xs, .frozensetV ys => py_eq_set fuel xs ys
      | .dictV es, .dictV fs => es.length = fs.length && py_dict_le fuel es fs
      | .rangeV a1 b1 c1, .rangeV a2 b2 c2 => range_eq a1 b1 c1 a2 b2 c2
      | .sliceV l1 u1 s1, .sliceV l2 u2 s2 =>
        py_eq_opt fuel l1 l2 && py_eq_opt fuel u1 u2 && py_eq_opt fuel s1 s2
      | .builtinV f, .builtinV g => f = g
      | .typeV c, .typeV d => c = d
      | .objV o, .objV p => o = p
      | _, _ => false

def py_eq_opt : Nat → Option Val → Option Val → Bool
  | _, Option.none, Option.none => true
  | fuel + 1, some x, some y => py_eq fuel x y
  | _, _, _ => false

def py_eq_list : Nat → List Val → List Val → Bool
  | _, [], [] => true
  | fuel + 1, x :: xs, y :: ys => py_eq fuel x y && py_eq_list fuel xs ys
  | _, _, _ => false

def py_mem : Nat → Val → List Val → Bool
  | _, _, [] => false
  | fuel + 1, x, y :: ys => py_eq fuel x y || py_mem fuel x ys
  | 0, _, _ => false

def py_subset : Nat → List Val → List Val → Bool
  | _, [], _ => true
  | fuel + 1, x :: xs, ys => py_mem fuel x ys && py_subset fuel xs ys
  | 0, _, _ => false

def py_eq_set : Nat → List Val → List Val → Bool
  | fuel + 1, xs, ys => py_subset fuel xs ys && py_subset fuel ys xs
  | 0, _, _ => false

def py_dict_le : Nat → List (Val × Val) → List (Val × Val) → Bool
  | _, [], _ => true
  | fuel + 1, (k, v) :: es, fs => py_find fuel fs k v && py_dict_le fuel es fs
  | 0, _, _ => false

def py_find : Nat → List (Val × Val) → Val → Val → Bool
  | _, [], _, _ => false
  | fuel + 1, (k0, v0) :: fs, k, v =>
    if py_eq fuel k k0 then py_eq fuel v v0 else py_find fuel fs k v
  | 0, _, _, _ => false

end

/-- Dictionary lookup by Python equality: the value of the matching key, or
none, which the subscript handler surfaces as the KeyError branch. -/
def dict_get (fuel : Nat) : List (Val × Val) → Val → Option Val
  | [], _ => none
  | (k, v) :: rest, ix => if py_eq fuel ix k then some v else dict_get fuel rest ix

/-- Set construction: deduplicate by Python equality, keeping the first of
each group of equal elements, as the Python set constructor does. -/
def set_add (fuel : Nat) (acc : List Val) (x : Val) : List Val :=
  if py_mem fuel x acc then acc else acc ++ [x]

def set_cons (fuel : Nat) (xs : List Val) : List Val :=
  xs.foldl (set_add fuel) []

/-- Dictionary insertion: replace the value of an already-equal key (the
first stored key object is kept), else append, as Python dictionaries do. -/
def dict_set (fuel : Nat) : List (Val × Val) → Val → Val → List (Val × Val)
  | [], k, v => [(k, v)]
  | (k0, v0) :: rest, k, v =>
    if py_eq fuel k k0 then (k0, v) :: rest else (k0, v0) :: dict_set fuel rest k v

def dict_of (fuel : Nat) (pairs : List (Val × Val)) : List (Val × Val) :=
  pairs.foldl (fun d kv => dict_set fuel d kv.1 kv.2) []

/-- utils.safe_hash_key: the exact type is one of the eight types whose hash
and equality run no user code, or a tuple or frozenset all of whose elements
are themselves safe hash keys.  The source returns None (falsy) in the
remaining case; modelled as false. -/
def safe_hash_key : Nat → Val → Bool
  | 0, _ => false
  | fuel + 1, k =>
    if is_any k.ty [.strT, .intT, .boolT, .floatT, .bytesT, .typeT, .complexT, .rangeT] then
      true
    else if is_any k.ty [.tupleT, .frozensetT] then
      match k with
      | .tupleV xs => xs.all (fun x => safe_hash_key fuel x)
      | .frozensetV xs => xs.all (fun x => safe_hash_key fuel x)
      | _ => false
    else false

/-- Hashability of the built-in values, as the Python hash protocol decides
it (lists, dictionaries, sets, bytearrays and slices are unhashable, tuples
are hashable when their elements are): what ast.literal_eval implicitly
checks when it builds a set or dictionary out of converted literals. -/
def lit_hashable : Nat → Val → Bool
  | 0, _ => false
  | fuel + 1, v =>
    match v with
    | .listV _ => false
    | .dictV _ => false
    | .setV _ => false
    | .bytearrayV _ => false
    | .sliceV _ _ _ => false
    | .tupleV xs => xs.all (fun x => lit_hashable fuel x)
    | _ => true

end PureEval

namespace PureEval

/-! ## The static attribute resolver (my_getattr_static.py)

The resolver inspects the Python object graph: objects, their classes, the
method resolution order, class dictionaries and descriptors.  That graph is
modelled by an explicit World: objects are numbered; every object has a class
(typeOf); class objects (isType) have a method resolution order (mro, the
list returned by the genuine type.__dict__ mro descriptor, starting at the
class itself) and a class dictionary (cdict, the genuine mapping behind the
__dict__ getset descriptor).  instDict gives the per-instance dictionary
obtained by object.__getattribute__(obj, "__dict__"); none models the
AttributeError of objects without one.  kind classifies which built-in
descriptor class an object is (member descriptors also serve as the slot
descriptor type of the source, which is the same Python type,
types.MemberDescriptorType); descName and objclass are the descriptor
metadata read by the genuineness test of _shadowed_dict.  getRes d o is the
outcome of the read hook d.__get__(o) of a trusted descriptor: Except.error
models the AttributeError an unset slot raises. -/

inductive DKind where
  | memberD
  | wrapperD
  | methodD
  | getsetD
  | plainD
deriving DecidableEq

structure World where
  isType : Nat → Bool
  typeOf : Nat → Nat
  mro : Nat → List Nat
  cdict : Nat → String → Option Nat
  instDict : Nat → Option (List (String × Nat))
  kind : Nat → DKind
  descName : Nat → Option String
  objclass : Nat → Option Nat
  getRes : Nat → Nat → Except Unit Nat

/-- The genuineness test of _shadowed_dict: the value found under the key
__dict__ of the class dictionary of entry is the genuine getset descriptor
(exact type GetSetDescriptorType, name __dict__, objclass the entry itself). -/
def genuine_dunder (w : World) (entry v : Nat) : Bool :=
  w.kind (w.typeOf v) = DKind.getsetD
    && w.descName v = some "__dict__"
    && w.objclass v = some entry

/-- my_getattr_static._shadowed_dict, walking the given method resolution
order: the first non-genuine value stored under __dict__ along the hierarchy,
or none (the sentinel) when every level either lacks the key or holds its own
genuine descriptor. -/
def shadowed_dict_walk (w : World) : List Nat → Option Nat
  | [] => none
  | entry :: rest =>
    match w.cdict entry "__dict__" with
    | Option.none => shadowed_dict_walk w rest
    | some v => if genuine_dunder w entry v then shadowed_dict_walk w rest else some v

def shadowed_dict (w : World) (klass : Nat) : Option Nat :=
  shadowed_dict_walk w (w.mro klass)

/-- my_getattr_static._check_class, walking the given method resolution
order: each entry whose metaclass has an unshadowed __dict__ is probed for
attr in its own class dictionary; a KeyError moves on to the next entry; an
entry whose metaclass dictionary is shadowed is skipped. -/
def check_class_walk (w : World) (attr : String) : List Nat → Option Nat
  | [] => none
  | entry :: rest =>
    if shadowed_dict w (w.typeOf entry) = Option.none then
      match w.cdict entry attr with
      | some v => some v
      | Option.none => check_class_walk w attr rest
    else check_class_walk w attr rest

def check_class (w : World) (klass : Nat) (attr : String) : Option Nat :=
  check_class_walk w attr (w.mro klass)

/-- my_getattr_static._check_instance: look attr up in the per-instance
dictionary; an AttributeError while fetching the dictionary leaves it empty,
so both that case and a missing key give the sentinel (none). -/
def assoc_str : List (String × Nat) → String → Option Nat
  | [], _ => none
  | (k, v) :: rest, a => if k = a then some v else assoc_str rest a

def check_instance (w : World) (obj : Nat) (attr : String) : Option Nat :=
  match w.instDict obj with
  | Option.none => none
  | some d => assoc_str d attr

/-- The outcome of the resolver, plus the log of read-hook invocations
(descriptor, object) actually performed, which makes the side-effect
discipline of the resolver a provable statement. -/
inductive GRes where
  | okR (v : Nat)
  | cannotEvalR
  | attrErrR
deriving DecidableEq

/-- The three trusted built-in descriptor shapes of the source: the slot
(member) descriptor type, the wrapper descriptor type and the method
descriptor type. -/
def trusted (w : World) (d : Nat) : Bool :=
  is_any_kind (w.kind (w.typeOf d)) where
  is_any_kind : DKind → Bool
    | .memberD => true
    | .wrapperD => true
    | .methodD => true
    | _ => false

/-- my_getattr_static._resolve_descriptor: of_type against the three trusted
descriptor types, then the read hook d.__get__(obj).  An untrusted descriptor
raises CannotEval before any hook runs (empty log).  Note the source wraps
the hook in no handler: an AttributeError raised by the hook of a trusted
descriptor (an unset slot) propagates. -/
def resolve_descriptor (w : World) (d obj : Nat) : GRes × List (Nat × Nat) :=
  if trusted w d then
    match w.getRes d obj with
    | .ok v => (.okR v, [(d, obj)])
    | .error _ => (.attrErrR, [(d, obj)])
  else (.cannotEvalR, [])

/-- The metaclass walk at the end of my_getattr_static.getattr_static: over
the method resolution order of the metaclass, each entry with an unshadowed
metaclass dictionary is probed for attr and the stored value is returned
raw, with no descriptor resolution. -/
def metaclass_walk (w : World) (attr : String) : List Nat → GRes × List (Nat × Nat)
  | [] => (.cannotEvalR, [])
  | entry :: rest =>
    if shadowed_dict w (w.typeOf entry) = Option.none then
      match w.cdict entry attr with
      | some v => (.okR v, [])
      | Option.none => metaclass_walk w attr rest
    else metaclass_walk w attr rest

/-- Whether the hierarchy-level value is a data descriptor: its class
hierarchy defines both a read hook and a write hook (the two _check_class
probes of the source). -/
def is_data (w : World) (v : Nat) : Bool :=
  (check_class w (w.typeOf v) "__get__").isSome
    && (check_class w (w.typeOf v) "__set__").isSome

/-- The guard before reading per-instance state: the instance dictionary
slot of the hierarchy is either unshadowed or shadowed only by a member
descriptor (a __dict__ slot). -/
def instance_guard (w : World) (klass : Nat) : Bool :=
  match shadowed_dict w klass with
  | Option.none => true
  | some dict_attr => w.kind (w.typeOf dict_attr) = DKind.memberD

/-- my_getattr_static.getattr_static: per-instance state (when the object is
not a type and the guard allows reading it), the class hierarchy, the data
descriptor precedence rule, non-data descriptor invocation, and the final
metaclass walk for types. -/
def getattr_static (w : World) (obj : Nat) (attr : String) : GRes × List (Nat × Nat) :=
  let instance_result : Option Nat :=
    if ¬w.isType obj then
      if instance_guard w (w.typeOf obj) then check_instance w obj attr else none
    else none
  let klass : Nat := if w.isType obj then obj else w.typeOf obj
  let klass_result : Option Nat := check_class w klass attr
  match instance_result, klass_result with
  | some iv, some kv =>
    if is_data w kv then resolve_descriptor w kv obj
    else (.okR iv, [])
  | some iv, Option.none => (.okR iv, [])
  | Option.none, some kv =>
    match check_class w (w.typeOf kv) "__get__" with
    | Option.none => (.okR kv, [])
    | some _ => resolve_descriptor w kv obj
  | Option.none, Option.none =>
    if w.isType obj then metaclass_walk w attr (w.mro (w.typeOf obj))
    else (.cannotEvalR, [])

end PureEval

namespace PureEval

/-! ## Value-level primitive operations

The primitives the evaluator applies after its type gates: Python arithmetic
on the numeric tower, sequence concatenation, repetition, indexing and
slicing, and the conversions of ast.literal_eval.  A returned
Except.error Fail.cannotEval models an exception that the calling handler
converts to CannotEval; typeError and valueError model exceptions that the
subscript handler does not catch. -/

def val_of_lit : Lit → Val
  | .intL n => .intV n
  | .floatL q => .floatV q
  | .complexL re im => .complexV re im
  | .strL s => .strV s
  | .bytesL b => .bytesV b
  | .boolL b => .boolV b
  | .noneL => .noneV

/-- int and bool seen as a Python integer index or operand. -/
def as_int : Val → Option Int
  | .intV n => some n
  | .boolV b => some (if b then 1 else 0)
  | _ => none

/-- The numeric tower: integer (int and bool), real (float) and complex. -/
inductive Num where
  | zInt (n : Int)
  | zRat (q : Rat)
  | zCpx (re im : Rat)

def as_num : Val → Option Num
  | .intV n => some (.zInt n)
  | .boolV b => some (.zInt (if b then 1 else 0))
  | .floatV q => some (.zRat q)
  | .complexV re im => some (.zCpx re im)
  | _ => none

def Num.isC : Num → Bool
  | .zCpx _ _ => true
  | _ => false

def Num.toC : Num → Rat × Rat
  | .zInt n => ((n : Rat), 0)
  | .zRat q => (q, 0)
  | .zCpx re im => (re, im)

def Num.out : Num → Val
  | .zInt n => .intV n
  | .zRat q => .floatV q
  | .zCpx re im => .complexV re im

/-- Addition, subtraction and multiplication on the tower, with the Python
result kind: int when both operands are integral, complex when either is
complex, float otherwise. -/
def num_add : Num → Num → Num
  | .zInt x, .zInt y => .zInt (x + y)
  | a, b =>
    if a.isC || b.isC then .zCpx (a.toC.1 + b.toC.1) (a.toC.2 + b.toC.2)
    else .zRat (a.toC.1 + b.toC.1)

def num_sub : Num → Num → Num
  | .zInt x, .zInt y => .zInt (x - y)
  | a, b =>
    if a.isC || b.isC then .zCpx (a.toC.1 - b.toC.1) (a.toC.2 - b.toC.2)
    else .zRat (a.toC.1 - b.toC.1)

def num_mul : Num → Num → Num
  | .zInt x, .zInt y => .zInt (x * y)
  | a, b =>
    if a.isC || b.isC then
      .zCpx (a.toC.1 * b.toC.1 - a.toC.2 * b.toC.2) (a.toC.1 * b.toC.2 + a.toC.2 * b.toC.1)
    else .zRat (a.toC.1 * b.toC.1)

/-- True division: always float (or complex); division by zero raises. -/
def num_div (a b : Num) : Except Fail Val :=
  if a.isC || b.isC then
    let d := b.toC.1 * b.toC.1 + b.toC.2 * b.toC.2
    if d = 0 then .error .cannotEval
    else
      .ok (.complexV ((a.toC.1 * b.toC.1 + a.toC.2 * b.toC.2) / d)
        ((a.toC.2 * b.toC.1 - a.toC.1 * b.toC.2) / d))
  else if b.toC.1 = 0 then .error .cannotEval
  else .ok (.floatV (a.toC.1 / b.toC.1))

/-- Floor division: floor rounding on integers and reals, a TypeError on
complex operands; both failure kinds surface as CannotEval through the
catch-all of the binary handler. -/
def num_floordiv (a b : Num) : Except Fail Val :=
  match a, b with
  | .zInt x, .zInt y => if y = 0 then .error .cannotEval else .ok (.intV (Int.fdiv x y))
  | _, _ =>
    if a.isC || b.isC then .error .cannotEval
    else if b.toC.1 = 0 then .error .cannotEval
    else .ok (.floatV ((Rat.floor (a.toC.1 / b.toC.1) : Int) : Rat))

/-- Remainder with the sign of the divisor, as the Python %. -/
def num_mod (a b : Num) : Except Fail Val :=
  match a, b with
  | .zInt x, .zInt y => if y = 0 then .error .cannotEval else .ok (.intV (Int.fmod x y))
  | _, _ =>
    if a.isC || b.isC then .error .cannotEval
    else if b.toC.1 = 0 then .error .cannotEval
    else .ok (.floatV (a.toC.1 - b.toC.1 * ((Rat.floor (a.toC.1 / b.toC.1) : Int) : Rat)))

/-- Exponentiation.  Integral exponents are computed exactly; a non-integral
real exponent or a complex operand generally has an irrational value, which
lies outside the rational universe of this model and is modelled as the
failing case. -/
def num_pow (a b : Num) : Except Fail Val :=
  match a, b with
  | .zInt x, .zInt y =>
    if 0 ≤ y then .ok (.intV (x ^ y.toNat))
    else if x = 0 then .error .cannotEval
    else .ok (.floatV (((x : Rat) ^ (-y).toNat)⁻¹))
  | _, _ =>
    if a.isC || b.isC then .error .cannotEval
    else
      let base := a.toC.1
      let q := b.toC.1
      if q.den = 1 then
        if 0 ≤ q.num then .ok (.floatV (base ^ q.num.toNat))
        else if base = 0 then .error .cannotEval
        else .ok (.floatV ((base ^ (-q.num).toNat)⁻¹))
      else .error .cannotEval

/-- Shifts: integers only; a negative shift count raises ValueError, which
the catch-all converts to CannotEval. -/
def num_shift (toLeft : Bool) (a b : Val) : Except Fail Val :=
  match as_int a, as_int b with
  | some x, some y =>
    if y < 0 then .error .cannotEval
    else if toLeft then .ok (.intV (x * (2 ^ y.toNat)))
    else .ok (.intV (Int.fdiv x (2 ^ y.toNat)))
  | _, _ => .error .cannotEval

/-- Bitwise operations: on two bools Python returns a bool, otherwise an
int. -/
def bit_vals (f : Int → Int → Int) (fb : Bool → Bool → Bool) (a b : Val) : Except Fail Val :=
  match a, b with
  | .boolV x, .boolV y => .ok (.boolV (fb x y))
  | _, _ =>
    match as_int a, as_int b with
    | some x, some y => .ok (.intV (f x y))
    | _, _ => .error .cannotEval

/-- Sequence repetition, with the Python clamp of negative counts to zero. -/
def rep_list {α : Type} (xs : List α) (n : Int) : List α :=
  List.flatten (List.replicate n.toNat xs)

/-- operator mapping of Evaluator._handle_binop, applied after both operands
passed the allowed-type gate.  String and bytes formatting with % is outside
the modelled universe and is modelled as the failing case (its own gate in
the handler is modelled faithfully). -/
def bin_apply (op : BinK) (l r : Val) : Except Fail Val :=
  match op with
  | .addK =>
    match as_num l, as_num r with
    | some a, some b => .ok (num_add a b).out
    | _, _ =>
      match l, r with
      | .strV s, .strV t => .ok (.strV (s ++ t))
      | .bytesV s, .bytesV t => .ok (.bytesV (s ++ t))
      | .listV s, .listV t => .ok (.listV (s ++ t))
      | .tupleV s, .tupleV t => .ok (.tupleV (s ++ t))
      | _, _ => .error .cannotEval
  | .subK =>
    match as_num l, as_num r with
    | some a, some b => .ok (num_sub a b).out
    | _, _ => .error .cannotEval
  | .multK =>
    match as_num l, as_num r with
    | some a, some b => .ok (num_mul a b).out
    | _, _ =>
      match l, r with
      | .strV s, _ =>
        match as_int r with
        | some n => .ok (.strV (rep_list s n))
        | Option.none => .error .cannotEval
      | _, .strV s =>
        match as_int l with
        | some n => .ok (.strV (rep_list s n))
        | Option.none => .error .cannotEval
      | .bytesV s, _ =>
        match as_int r with
        | some n => .ok (.bytesV (rep_list s n))
        | Option.none => .error .cannotEval
      | _, .bytesV s =>
        match as_int l with
        | some n => .ok (.bytesV (rep_list s n))
        | Option.none => .error .cannotEval
      | .listV s, _ =>
        match as_int r with
        | some n => .ok (.listV (rep_list s n))
        | Option.none => .error .cannotEval
      | _, .listV s =>
        match as_int l with
        | some n => .ok (.listV (rep_list s n))
        | Option.none => .error .cannotEval
      | .tupleV s, _ =>
        match as_int r with
        | some n => .ok (.tupleV (rep_list s n))
        | Option.none => .error .cannotEval
      | _, .tupleV s =>
        match as_int l with
        | some n => .ok (.tupleV (rep_list s n))
        | Option.none => .error .cannotEval
      | _, _ => .error .cannotEval
  | .divK =>
    match as_num l, as_num r with
    | some a, some b => num_div a b
    | _, _ => .error .cannotEval
  | .floorDivK =>
    match as_num l, as_num r with
    | some a, some b => num_floordiv a b
    | _, _ => .error .cannotEval
  | .modK =>
    match as_num l, as_num r with
    | some a, some b => num_mod a b
    | _, _ => .error .cannotEval
  | .powK =>
    match as_num l, as_num r with
    | some a, some b => num_pow a b
    | _, _ => .error .cannotEval
  | .lshiftK => num_shift true l r
  | .rshiftK => num_shift false l r
  | .bitOrK => bit_vals Int.lor or l r
  | .bitXorK => bit_vals Int.xor xor l r
  | .bitAndK => bit_vals Int.land and l r
  | .matMultK => .error .cannotEval

/-- operator mapping of Evaluator._handle_unary, applied after the operand
passed the allowed-type gate; a primitive failure (negating a string,
inverting a float) becomes CannotEval in the handler. -/
def unary_apply (op : UnOp) (v : Val) : Except Fail Val :=
  match op with
  | .notOp => .ok (.boolV (!truthy v))
  | .usub =>
    match as_num v with
    | some (.zInt n) => .ok (.intV (-n))
    | some (.zRat q) => .ok (.floatV (-q))
    | some (.zCpx re im) => .ok (.complexV (-re) (-im))
    | Option.none => .error .cannotEval
  | .uadd =>
    match as_num v with
    | some a => .ok a.out
    | Option.none => .error .cannotEval
  | .invert =>
    match as_int v with
    | some n => .ok (.intV (-n - 1))
    | Option.none => .error .cannotEval

/-- Indexing one element out of a sequence value; the index is already known
to be in range. -/
def seq_elem : Val → Nat → Val
  | .listV xs, j => xs.getD j .noneV
  | .tupleV xs, j => xs.getD j .noneV
  | .strV s, j => .strV [s.getD j (Char.ofNat 0)]
  | .bytesV b, j => .intV (b.getD j 0)
  | .bytearrayV b, j => .intV (b.getD j 0)
  | _, _ => .noneV

/-- Native sequence indexing: a negative index counts from the end; out of
range raises IndexError, which the subscript handler catches as
CannotEval. -/
def seq_get (value : Val) (i : Int) : Except Fail Val :=
  match py_len value with
  | some n =>
    let j : Int := if i < 0 then i + n else i
    if 0 ≤ j ∧ j < n then .ok (seq_elem value j.toNat) else .error .cannotEval
  | Option.none => .error .typeError

/-- Slice bound adjustment, as the interpreter clamps slice bounds to the
sequence length (the missing bound defaults depend on the sign of the
step). -/
def slice_adjust_one (n : Int) (step : Int) (b : Option Int) (isStart : Bool) : Int :=
  match b with
  | Option.none => if isStart then (if 0 < step then 0 else n - 1) else (if 0 < step then n else -1)
  | some s0 =>
    if s0 < 0 then (if s0 + n < 0 then (if 0 < step then 0 else -1) else s0 + n)
    else if n ≤ s0 then (if 0 < step then n else n - 1)
    else s0

def slice_count (start stop step : Int) : Nat :=
  if 0 < step then (if start < stop then ((stop - start - 1) / step).toNat + 1 else 0)
  else (if stop < start then ((start - stop - 1) / (-step)).toNat + 1 else 0)

def slice_indices (n : Int) (lo hi : Option Int) (step : Int) : List Nat :=
  let start := slice_adjust_one n step lo true
  let stop := slice_adjust_one n step hi false
  (List.range (slice_count start stop step)).map (fun k => (start + k * step).toNat)

/-- Applying a slice object to a sequence value.  A zero step raises
ValueError, which the subscript handler does not catch. -/
def slice_apply (value : Val) (lo hi stp : Option Val) : Except Fail Val :=
  let step : Int := match stp.bind as_int with | some s => s | Option.none => 1
  if step = 0 then .error .valueError
  else
    match py_len value with
    | Option.none => .error .typeError
    | some n =>
      let idxs := slice_indices n (lo.bind as_int) (hi.bind as_int) step
      match value with
      | .listV xs => .ok (.listV (idxs.map (fun j => xs.getD j .noneV)))
      | .tupleV xs => .ok (.tupleV (idxs.map (fun j => xs.getD j .noneV)))
      | .strV s => .ok (.strV (idxs.map (fun j => s.getD j (Char.ofNat 0))))
      | .bytesV b => .ok (.bytesV (idxs.map (fun j => b.getD j 0)))
      | .bytearrayV b => .ok (.bytearrayV (idxs.map (fun j => b.getD j 0)))
      | _ => .error .typeError

/-- value[index] at the end of Evaluator._handle_subscript: dictionary
lookup (a missing key is the caught KeyError), sequence slicing, or sequence
indexing (an out-of-range index is the caught IndexError). -/
def subscript_apply (fuel : Nat) (value index : Val) : Except Fail Val :=
  match value with
  | .dictV es =>
    match dict_get fuel es index with
    | some v => .ok v
    | Option.none => .error .cannotEval
  | _ =>
    match index with
    | .sliceV lo hi stp => slice_apply value lo hi stp
    | _ =>
      match as_int index with
      | some i => seq_get value i
      | Option.none => .error .typeError

end PureEval

namespace PureEval

/-! ## The call allowlist and its built-ins

Modelled from the spec: the call handler of the evaluator is code of this
repository that is not among the staged source files (only its tests exercise
it), so the fixed allowlist of side-effect-free built-ins and the handler
below follow the specification text: calls are permitted only when the callee
resolves to a member of a fixed allowlist of side-effect-free built-in
constructors and functions, with no keyword and no starred arguments, and any
exception from the built-in itself becomes CannotEval.  A representative
fragment of the allowlist is modelled (len, abs, int, float, bool, tuple,
range, slice, sum, min, max), together with one non-allowlisted built-in
(print) witnessing the callee gate.  Behaviours whose exact value lies
outside the modelled universe (iterating a set, an irrational power) are
modelled as the raising case. -/

def rat_trunc (q : Rat) : Int :=
  if q < 0 then -Rat.floor (-q) else Rat.floor q

def digit_of (c : Char) : Option Nat :=
  if 48 ≤ c.toNat ∧ c.toNat ≤ 57 then some (c.toNat - 48) else none

def digits_val : List Char → Option Nat
  | [] => none
  | [c] => digit_of c
  | c :: rest =>
    match digit_of c, digits_val rest with
    | some d, some n => some (d * 10 ^ rest.length + n)
    | _, _ => none

def parse_int : List Char → Option Int
  | c :: rest =>
    if c.toNat = 45 then (digits_val rest).map (fun n => -(n : Int))
    else (digits_val (c :: rest)).map (fun n => (n : Int))
  | [] => none

def lex_lt : List Char → List Char → Bool
  | [], [] => false
  | [], _ :: _ => true
  | _ :: _, [] => false
  | c :: s, d :: t => if c = d then lex_lt s t else c.toNat < d.toNat

/-- Ordering of two values under the Python <, where it runs no user code:
none for incomparable pairs (TypeError). -/
def val_lt (a b : Val) : Option Bool :=
  match as_num a, as_num b with
  | some x, some y =>
    if x.isC || y.isC then none else some (x.toC.1 < y.toC.1)
  | _, _ =>
    match a, b with
    | .strV s, .strV t => some (lex_lt s t)
    | _, _ => none

/-- Python min and max: fold keeping the first extremal element. -/
def run_extremum (pickMin : Bool) : Val → List Val → Option Val
  | best, [] => some best
  | best, y :: ys =>
    match (if pickMin then val_lt y best else val_lt best y) with
    | some true => run_extremum pickMin y ys
    | some false => run_extremum pickMin best ys
    | Option.none => none

/-- The elements a built-in iterates over a value, where the order is
well-defined without user code; set iteration order is modelled as
unavailable. -/
def iter_elems : Val → Option (List Val)
  | .listV xs => some xs
  | .tupleV xs => some xs
  | .strV s => some (s.map (fun c => .strV [c]))
  | .bytesV b => some (b.map (fun n => .intV (n : Int)))
  | .rangeV a b c => some ((List.range (range_len a b c)).map (fun k => .intV (a + k * c)))
  | .dictV es => some (es.map (fun kv => kv.1))
  | _ => none

def sum_nums : Num → List Val → Option Val
  | acc, [] => some acc.out
  | acc, v :: vs =>
    match as_num v with
    | some b => sum_nums (num_add acc b) vs
    | Option.none => none

/-- Arguments of min and max: two or more positional values, or one iterable
argument. -/
def extremum_pool : List Val → Option (List Val)
  | [v] => iter_elems v
  | vs => if 2 ≤ vs.length then some vs else none

/-- Python None arguments to slice() denote a missing bound. -/
def opt_of_val : Val → Option Val
  | .noneV => Option.none
  | v => some v

/-- Modelled from the spec: applying an allowlisted built-in to the argument
values; none models any exception the built-in raises (wrong arity, wrong
argument type, unparseable string, empty extremum). -/
def apply_builtin : BuiltinF → List Val → Option Val
  | .lenB, [v] => (py_len v).map (fun n => .intV (n : Int))
  | .absB, [v] =>
    match v with
    | .intV n => some (.intV (n.natAbs : Int))
    | .boolV b => some (.intV (if b then 1 else 0))
    | .floatV q => some (.floatV (if q < 0 then -q else q))
    | _ => none
  | .intB, [] => some (.intV 0)
  | .intB, [v] =>
    match v with
    | .intV n => some (.intV n)
    | .boolV b => some (.intV (if b then 1 else 0))
    | .floatV q => some (.intV (rat_trunc q))
    | .strV s => (parse_int s).map (fun n => .intV n)
    | _ => none
  | .floatB, [] => some (.floatV 0)
  | .floatB, [v] =>
    match v with
    | .intV n => some (.floatV (n : Rat))
    | .boolV b => some (.floatV (if b then 1 else 0))
    | .floatV q => some (.floatV q)
    | _ => none
  | .boolB, [] => some (.boolV false)
  | .boolB, [v] => some (.boolV (truthy v))
  | .tupleB, [] => some (.tupleV [])
  | .tupleB, [v] => (iter_elems v).map (fun xs => .tupleV xs)
  | .rangeB, [v] =>
    match as_int v with
    | some n => some (.rangeV 0 n 1)
    | Option.none => none
  | .rangeB, [v, w] =>
    match as_int v, as_int w with
    | some a, some b => some (.rangeV a b 1)
    | _, _ => none
  | .rangeB, [v, w, x] =>
    match as_int v, as_int w, as_int x with
    | some a, some b, some c => if c = 0 then none else some (.rangeV a b c)
    | _, _, _ => none
  | .sliceB, [a] => some (.sliceV Option.none (opt_of_val a) Option.none)
  | .sliceB, [a, b] => some (.sliceV (opt_of_val a) (opt_of_val b) Option.none)
  | .sliceB, [a, b, c] => some (.sliceV (opt_of_val a) (opt_of_val b) (opt_of_val c))
  | .sumB, [v] => (iter_elems v).bind (fun xs => sum_nums (.zInt 0) xs)
  | .minB, args =>
    (extremum_pool args).bind (fun pool =>
      match pool with
      | [] => none
      | x :: xs => run_extremum true x xs)
  | .maxB, args =>
    (extremum_pool args).bind (fun pool =>
      match pool with
      | [] => none
      | x :: xs => run_extremum false x xs)
  | _, _ => none

/-- Modelled from the spec: membership in the fixed allowlist.  print stands
for the built-ins outside it. -/
def allowlisted : BuiltinF → Bool
  | .printB => false
  | _ => true

def is_starred : Expr → Bool
  | .starred _ _ _ => true
  | _ => false

/-! ## The evaluator session and state (core.py, class Evaluator)

A session owns the name environment (the chained mapping of
Evaluator.__init__; a missing name is the KeyError branch) and the attribute
resolver it delegates to (getattr_static; the ga field is instantiated by
ga_of_world for a given object world).  The mutable state is the memo table
(node identity to value or CannotEval marker) plus a counter of _handle
invocations, which makes re-invocation of the resolution logic observable in
theorems. -/

inductive GaRes where
  | okG (v : Val)
  | cannotEvalG
  | attrErrG

def lift_ga : GaRes → Except Fail Val
  | .okG v => .ok v
  | .cannotEvalG => .error .cannotEval
  | .attrErrG => .error .attrError

structure Sess where
  names : String → Option Val
  ga : Val → String → GaRes

structure St where
  cache : List (Nat × Option Val)
  handleCalls : Nat

def cache_get : List (Nat × Option Val) → Nat → Option (Option Val)
  | [], _ => none
  | (k, r) :: rest, u => if k = u then some r else cache_get rest u

/-- The attribute resolver of a session over a given object world: values of
kind objV resolve through the static resolver; attribute access on the other
value kinds is outside the modelled object graph and unresolvable in it. -/
def ga_of_world (w : World) : Val → String → GaRes := fun v attr =>
  match v with
  | .objV oid =>
    match (getattr_static w oid attr).1 with
    | .okR n => .okG (.objV n)
    | .cannotEvalR => .cannotEvalG
    | .attrErrR => .attrErrG
  | _ => .cannotEvalG

/-- Allowed operand types of Evaluator._handle_boolop. -/
def boolop_allowed : List Ty :=
  [.intT, .floatT, .complexT, .boolT, .strT, .bytesT, .rangeT, .listT, .tupleT,
   .dictT, .setT, .frozensetT, .noneT]

/-- Allowed operand types of Evaluator._handle_binop. -/
def binop_allowed : List Ty :=
  [.intT, .floatT, .complexT, .boolT, .strT, .bytesT, .rangeT, .listT, .tupleT]

/-- Allowed operand types of Evaluator._handle_unary. -/
def unary_allowed : List Ty :=
  [.intT, .floatT, .complexT, .boolT, .strT, .listT, .dictT, .setT, .tupleT,
   .frozensetT, .bytesT, .rangeT, .noneT]

/-- The sequence types of Evaluator._handle_subscript. -/
def seq_types : List Ty := [.listT, .tupleT, .strT, .bytesT, .bytearrayT]

/-- Right-operand types the format gate of Evaluator._handle_binop accepts
for % on strings and bytes. -/
def mod_fmt_ok : List Ty :=
  [.intT, .floatT, .complexT, .boolT, .strT, .bytesT, .rangeT]

/-- Check of a slice component against int, bool and None in
Evaluator._handle_subscript (None components are the none case). -/
def slice_comp_ok : Option Val → Bool
  | Option.none => true
  | some v => is_any v.ty [.intT, .boolT]

/-- Literal constants with exact numeric type, the _convert_num of
ast.literal_eval (bool is rejected by the exact type test). -/
def lit_num : Expr → Option Val
  | .constant (.intL n) _ => some (.intV n)
  | .constant (.floatL q) _ => some (.floatV q)
  | .constant (.complexL re im) _ => some (.complexV re im)
  | _ => none

/-- The _convert_signed_num of ast.literal_eval: an optional single leading
sign on a numeric constant. -/
def lit_signed_num : Expr → Option Val
  | .unaryOp .usub e _ =>
    (lit_num e).map (fun v =>
      match v with
      | .intV n => .intV (-n)
      | .floatV q => .floatV (-q)
      | .complexV re im => .complexV (-re) (-im)
      | w => w)
  | .unaryOp .uadd e _ => lit_num e
  | e => lit_num e

end PureEval

namespace PureEval

/-! ## The evaluator (core.py)

getitem is Evaluator.__getitem__: the non-expression TypeError guard (the
none argument models an input that is not an expression node, such as the
None entries a dict-unpacking display holds in its keys list), the memo
lookup, and the write-back of the handled result, where only a value or
CannotEval is recorded — any other exception leaves the memo untouched.

handle is Evaluator._handle: ast.literal_eval first with every exception
suppressed, then the dispatch on the node kind, ending in CannotEval for any
unhandled kind.  The call branch is modelled from the spec (see the allowlist
section above); every other branch follows the source.  Every function
consumes one unit of fuel per call, so any fuel above the total size of the
evaluated expression is adequate. -/

mutual

def getitem (sess : Sess) : Nat → St → Option Expr → (Except Fail Val) × St
  | 0, st, _ => (.error .fuelOut, st)
  | _ + 1, st, Option.none => (.error .typeError, st)
  | fuel + 1, st, some node =>
    match cache_get st.cache node.uid with
    | some (some v) => (.ok v, st)
    | some Option.none => (.error .cannotEval, st)
    | Option.none =>
      match handle sess fuel st node with
      | (.ok v, st1) => (.ok v, { st1 with cache := (node.uid, some v) :: st1.cache })
      | (.error .cannotEval, st1) =>
        (.error .cannotEval, { st1 with cache := (node.uid, Option.none) :: st1.cache })
      | (.error e, st1) => (.error e, st1)

def handle (sess : Sess) : Nat → St → Expr → (Except Fail Val) × St
  | 0, st, _ => (.error .fuelOut, st)
  | fuel + 1, st0, node =>
    let st := { st0 with handleCalls := st0.handleCalls + 1 }
    match lit_eval fuel node with
    | some v => (.ok v, st)
    | Option.none =>
      match node with
      | .nameE i _ _ =>
        match sess.names i with
        | some v => (.ok v, st)
        | Option.none => (.error .cannotEval, st)
      | .attributeE ve a _ _ =>
        match getitem sess fuel st (some ve) with
        | (.error e, st1) => (.error e, st1)
        | (.ok v, st1) => (lift_ga (sess.ga v a), st1)
      | .subscript ve ie _ _ => handle_subscript sess fuel st ve ie
      | .listE _ _ _ => handle_container sess fuel st node
      | .tupleE _ _ _ => handle_container sess fuel st node
      | .setE _ _ => handle_container sess fuel st node
      | .dictE _ _ _ => handle_container sess fuel st node
      | .unaryOp op e _ => handle_unary sess fuel st op e
      | .binOp l op r _ => handle_binop sess fuel st l op r
      | .boolOp op first rest _ => handle_boolop sess fuel st op first rest
      | .call f args kws _ => handle_call sess fuel st f args kws
      | _ => (.error .cannotEval, st)

def handle_subscript (sess : Sess) : Nat → St → Expr → Expr → (Except Fail Val) × St
  | 0, st, _, _ => (.error .fuelOut, st)
  | fuel + 1, st, base, idxe =>
    match getitem sess fuel st (some base) with
    | (.error e, st1) => (.error e, st1)
    | (.ok value, st1) =>
      match eval_sub_index sess fuel st1 idxe with
      | (.error e, st2) => (.error e, st2)
      | (.ok index, st2) =>
        if is_any value.ty seq_types then
          match index with
          | .sliceV lo hi stp =>
            if slice_comp_ok lo && slice_comp_ok hi && slice_comp_ok stp then
              (subscript_apply fuel value index, st2)
            else (.error .cannotEval, st2)
          | _ =>
            match of_type index [.intT, .boolT] with
            | .ok _ => (subscript_apply fuel value index, st2)
            | .error e => (.error e, st2)
        else
          match value with
          | .dictV es =>
            if safe_hash_key fuel index && decide (es.length < 10000)
                && es.all (fun kv => safe_hash_key fuel kv.1) then
              (subscript_apply fuel value index, st2)
            else (.error .cannotEval, st2)
          | _ => (.error .cannotEval, st2)

/-- The index-operand resolution at the top of Evaluator._handle_subscript:
a slice node has each present bound evaluated and checked against int and
bool and becomes a slice value; the legacy extended slice raises CannotEval;
any other index expression is evaluated as a plain sub-expression. -/
def eval_sub_index (sess : Sess) : Nat → St → Expr → (Except Fail Val) × St
  | 0, st, _ => (.error .fuelOut, st)
  | fuel + 1, st, idxe =>
    match idxe with
    | .sliceE lo hi stp _ =>
      match eval_slice_comp sess fuel st lo with
      | (.error e, st1) => (.error e, st1)
      | (.ok l, st1) =>
        match eval_slice_comp sess fuel st1 hi with
        | (.error e, st2) => (.error e, st2)
        | (.ok u, st2) =>
          match eval_slice_comp sess fuel st2 stp with
          | (.error e, st3) => (.error e, st3)
          | (.ok s, st3) => (.ok (Val.sliceV l u s), st3)
    | .extSliceE _ => (.error Fail.cannotEval, st)
    | ie => getitem sess fuel st (some ie)

def eval_slice_comp (sess : Sess) : Nat → St → Option Expr → (Except Fail (Option Val)) × St
  | 0, st, _ => (.error .fuelOut, st)
  | _ + 1, st, Option.none => (.ok Option.none, st)
  | fuel + 1, st, some p =>
    match getitem sess fuel st (some p) with
    | (.error e, st1) => (.error e, st1)
    | (.ok v, st1) =>
      match of_type v [.intT, .boolT] with
      | .ok v2 => (.ok (some v2), st1)
      | .error e => (.error e, st1)

def handle_container (sess : Sess) : Nat → St → Expr → (Except Fail Val) × St
  | 0, st, _ => (.error .fuelOut, st)
  | fuel + 1, st, node =>
    let elts_src : List (Option Expr) :=
      match node with
      | .dictE ks _ _ => ks
      | .listE es _ _ => es.map some
      | .tupleE es _ _ => es.map some
      | .setE es _ => es.map some
      | _ => []
    match eval_elts sess fuel st elts_src with
    | (.error e, st1) => (.error e, st1)
    | (.ok elts, st1) =>
      match node with
      | .listE _ _ _ => (.ok (.listV elts), st1)
      | .tupleE _ _ _ => (.ok (.tupleV elts), st1)
      | _ =>
        if elts.all (fun x => safe_hash_key fuel x) then
          match node with
          | .setE _ _ => (.ok (.setV (set_cons fuel elts)), st1)
          | .dictE _ vs _ =>
            match eval_pairs sess fuel st1 (elts.zip vs) with
            | (.error e, st2) => (.error e, st2)
            | (.ok pairs, st2) => (.ok (.dictV (dict_of fuel pairs)), st2)
          | _ => (.error .cannotEval, st1)
        else (.error .cannotEval, st1)

def eval_elts (sess : Sess) : Nat → St → List (Option Expr) → (Except Fail (List Val)) × St
  | 0, st, _ => (.error .fuelOut, st)
  | _ + 1, st, [] => (.ok [], st)
  | fuel + 1, st, e :: rest =>
    match getitem sess fuel st e with
    | (.error x, st1) => (.error x, st1)
    | (.ok v, st1) =>
      match eval_elts sess fuel st1 rest with
      | (.ok vs, st2) => (.ok (v :: vs), st2)
      | (.error x, st2) => (.error x, st2)

def eval_pairs (sess : Sess) : Nat → St → List (Val × Expr) → (Except Fail (List (Val × Val))) × St
  | 0, st, _ => (.error .fuelOut, st)
  | _ + 1, st, [] => (.ok [], st)
  | fuel + 1, st, (k, ve) :: rest =>
    match getitem sess fuel st (some ve) with
    | (.error e, st1) => (.error e, st1)
    | (.ok v, st1) =>
      match eval_pairs sess fuel st1 rest with
      | (.ok ps, st2) => (.ok ((k, v) :: ps), st2)
      | (.error e, st2) => (.error e, st2)

def handle_unary (sess : Sess) : Nat → St → UnOp → Expr → (Except Fail Val) × St
  | 0, st, _, _ => (.error .fuelOut, st)
  | fuel + 1, st, op, operand =>
    match getitem sess fuel st (some operand) with
    | (.error e, st1) => (.error e, st1)
    | (.ok v, st1) =>
      match of_type v unary_allowed with
      | .error e => (.error e, st1)
      | .ok value => (unary_apply op value, st1)

def handle_binop (sess : Sess) : Nat → St → Expr → BinK → Expr → (Except Fail Val) × St
  | 0, st, _, _, _ => (.error .fuelOut, st)
  | fuel + 1, st, l, op, r =>
    if op = BinK.matMultK then (.error .cannotEval, st)
    else
      match getitem sess fuel st (some l) with
      | (.error e, st1) => (.error e, st1)
      | (.ok lv, st1) =>
        match of_type lv binop_allowed with
        | .error e => (.error e, st1)
        | .ok left =>
          match getitem sess fuel st1 (some r) with
          | (.error e, st2) => (.error e, st2)
          | (.ok rv, st2) =>
            match of_type rv binop_allowed with
            | .error e => (.error e, st2)
            | .ok right =>
              if is_any left.ty [.strT, .bytesT] && op = BinK.modK
                  && !is_any right.ty mod_fmt_ok then
                (.error .cannotEval, st2)
              else (bin_apply op left right, st2)

def handle_boolop (sess : Sess) : Nat → St → BoolK → Expr → List Expr → (Except Fail Val) × St
  | 0, st, _, _, _ => (.error .fuelOut, st)
  | fuel + 1, st, op, first, rest =>
    match getitem sess fuel st (some first) with
    | (.error e, st1) => (.error e, st1)
    | (.ok v, st1) =>
      match of_type v boolop_allowed with
      | .error e => (.error e, st1)
      | .ok left => boolop_fold sess fuel st1 op left rest

def boolop_fold (sess : Sess) : Nat → St → BoolK → Val → List Expr → (Except Fail Val) × St
  | 0, st, _, _, _ => (.error .fuelOut, st)
  | _ + 1, st, _, left, [] => (.ok left, st)
  | fuel + 1, st, op, left, r :: rs =>
    let keep : Bool := match op with | .orK => truthy left | .andK => !truthy left
    if keep then boolop_fold sess fuel st op left rs
    else
      match getitem sess fuel st (some r) with
      | (.error e, st1) => (.error e, st1)
      | (.ok v, st1) =>
        match of_type v boolop_allowed with
        | .error e => (.error e, st1)
        | .ok newLeft => boolop_fold sess fuel st1 op newLeft rs

def handle_call (sess : Sess) : Nat → St → Expr → List Expr → List (Option String × Expr) → (Except Fail Val) × St
  | 0, st, _, _, _ => (.error .fuelOut, st)
  | fuel + 1, st, func, args, kwords =>
    if ¬kwords.isEmpty then (.error .cannotEval, st)
    else if args.any is_starred then (.error .cannotEval, st)
    else
      match getitem sess fuel st (some func) with
      | (.error e, st1) => (.error e, st1)
      | (.ok f, st1) =>
        match f with
        | .builtinV b =>
          if allowlisted b then
            match eval_args sess fuel st1 args with
            | (.error e, st2) => (.error e, st2)
            | (.ok vs, st2) =>
              (match apply_builtin b vs with
               | some v => .ok v
               | Option.none => .error .cannotEval, st2)
          else (.error .cannotEval, st1)
        | _ => (.error .cannotEval, st1)

def eval_args (sess : Sess) : Nat → St → List Expr → (Except Fail (List Val)) × St
  | 0, st, _ => (.error .fuelOut, st)
  | _ + 1, st, [] => (.ok [], st)
  | fuel + 1, st, a :: rest =>
    match getitem sess fuel st (some a) with
    | (.error e, st1) => (.error e, st1)
    | (.ok v, st1) =>
      match eval_args sess fuel st1 rest with
      | (.ok vs, st2) => (.ok (v :: vs), st2)
      | (.error e, st2) => (.error e, st2)

def lit_eval : Nat → Expr → Option Val
  | 0, _ => none
  | fuel + 1, node =>
    match node with
    | .constant l _ => some (val_of_lit l)
    | .tupleE es _ _ => (lit_eval_list fuel es).map Val.tupleV
    | .listE es _ _ => (lit_eval_list fuel es).map Val.listV
    | .setE es _ =>
      match lit_eval_list fuel es with
      | some xs =>
        if xs.all (fun x => lit_hashable fuel x) then some (.setV (set_cons fuel xs)) else none
      | Option.none => none
    | .dictE ks vs _ =>
      match lit_eval_pairs fuel ks vs with
      | some pairs =>
        if pairs.all (fun kv => lit_hashable fuel kv.1) then
          some (.dictV (dict_of fuel pairs))
        else none
      | Option.none => none
    | .unaryOp _ _ _ => lit_signed_num node
    | .binOp l op r _ =>
      if op = BinK.addK || op = BinK.subK then
        match lit_signed_num l, lit_num r with
        | some (.intV n), some (.complexV br bi) =>
          some (if op = BinK.addK then .complexV ((n : Rat) + br) bi
                else .complexV ((n : Rat) - br) (-bi))
        | some (.floatV q), some (.complexV br bi) =>
          some (if op = BinK.addK then .complexV (q + br) bi
                else .complexV (q - br) (-bi))
        | _, _ => none
      else none
    | _ => none

def lit_eval_list : Nat → List Expr → Option (List Val)
  | 0, _ => none
  | _ + 1, [] => some []
  | fuel + 1, e :: es =>
    match lit_eval fuel e, lit_eval_list fuel es with
    | some v, some vs => some (v :: vs)
    | _, _ => none

def lit_eval_pairs : Nat → List (Option Expr) → List Expr → Option (List (Val × Val))
  | 0, _, _ => none
  | _ + 1, [], _ => some []
  | fuel + 1, k? :: _, [] =>
    match k? with
    | Option.none => none
    | some k => (lit_eval fuel k).map (fun _ => [])
  | fuel + 1, k? :: ks, v :: vs =>
    match k? with
    | Option.none => none
    | some k =>
      match lit_eval fuel k, lit_eval fuel v, lit_eval_pairs fuel ks vs with
      | some kv, some vv, some ps => some ((kv, vv) :: ps)
      | _, _, _ => none

end

end PureEval

namespace PureEval

/-! ## Structural equivalence and grouping (core.py, group_expressions)

copy_ast_without_context copies a node recursively, dropping every ctx field;
the copy also carries no position attributes, and ast.dump prints no
attributes either, so the dictionary key the source groups by —
ast.dump(copy_ast_without_context(node)) — is an injective printed form of
exactly the stripped tree below.  Keying by the stripped tree itself
therefore yields the same partition. -/

inductive ExprS where
  | constant (v : Lit)
  | nameE (id : String)
  | attributeE (value : ExprS) (attr : String)
  | subscript (value : ExprS) (idx : ExprS)
  | sliceE (lower upper step : Option ExprS)
  | extSliceE
  | listE (elts : List ExprS)
  | tupleE (elts : List ExprS)
  | setE (elts : List ExprS)
  | dictE (keys : List (Option ExprS)) (vals : List ExprS)
  | unaryOp (op : UnOp) (operand : ExprS)
  | binOp (left : ExprS) (op : BinK) (right : ExprS)
  | boolOp (op : BoolK) (first : ExprS) (rest : List ExprS)
  | call (func : ExprS) (args : List ExprS) (kwords : List (Option String × ExprS))
  | starred (value : ExprS)
  | unsupportedE

mutual

def beqS : ExprS → ExprS → Bool
  | .constant v, .constant w => v = w
  | .nameE i, .nameE j => i = j
  | .attributeE v a, .attributeE w b => beqS v w && a = b
  | .subscript v i, .subscript w j => beqS v w && beqS i j
  | .sliceE a b c, .sliceE d e f => beqSO a d && beqSO b e && beqSO c f
  | .extSliceE, .extSliceE => true
  | .listE es, .listE fs => beqSL es fs
  | .tupleE es, .tupleE fs => beqSL es fs
  | .setE es, .setE fs => beqSL es fs
  | .dictE ks vs, .dictE ls ws => beqSLO ks ls && beqSL vs ws
  | .unaryOp o e, .unaryOp p f => o = p && beqS e f
  | .binOp l o r, .binOp m p s => beqS l m && o = p && beqS r s
  | .boolOp o v rest, .boolOp p w rest2 => o = p && beqS v w && beqSL rest rest2
  | .call f as ks, .call g bs ls => beqS f g && beqSL as bs && beqSKW ks ls
  | .starred v, .starred w => beqS v w
  | .unsupportedE, .unsupportedE => true
  | _, _ => false

def beqSO : Option ExprS → Option ExprS → Bool
  | Option.none, Option.none => true
  | some e, some f => beqS e f
  | _, _ => false

def beqSL : List ExprS → List ExprS → Bool
  | [], [] => true
  | e :: es, f :: fs => beqS e f && beqSL es fs
  | _, _ => false

def beqSLO : List (Option ExprS) → List (Option ExprS) → Bool
  | [], [] => true
  | e :: es, f :: fs => beqSO e f && beqSLO es fs
  | _, _ => false

def beqSKW : List (Option String × ExprS) → List (Option String × ExprS) → Bool
  | [], [] => true
  | (n, e) :: es, (o, f) :: fs => n = o && beqS e f && beqSKW es fs
  | _, _ => false

end

set_option maxHeartbeats 1600000

mutual

theorem beqS_iff : ∀ a b : ExprS, beqS a b = true ↔ a = b
  | .constant _, b => by cases b <;> simp [beqS]
  | .nameE _, b => by cases b <;> simp [beqS]
  | .attributeE v _, b => by cases b <;> simp [beqS, beqS_iff v]
  | .subscript v i, b => by cases b <;> simp [beqS, beqS_iff v, beqS_iff i]
  | .sliceE a b c, d => by
    cases d <;> simp [beqS, beqSO_iff a, beqSO_iff b, beqSO_iff c, and_assoc]
  | .extSliceE, b => by cases b <;> simp [beqS]
  | .listE es, b => by cases b <;> simp [beqS, beqSL_iff es]
  | .tupleE es, b => by cases b <;> simp [beqS, beqSL_iff es]
  | .setE es, b => by cases b <;> simp [beqS, beqSL_iff es]
  | .dictE ks vs, b => by cases b <;> simp [beqS, beqSLO_iff ks, beqSL_iff vs]
  | .unaryOp _ e, b => by cases b <;> simp [beqS, beqS_iff e]
  | .binOp l _ r, b => by cases b <;> simp [beqS, beqS_iff l, beqS_iff r, and_assoc]
  | .boolOp _ v rest, b => by
    cases b <;> simp [beqS, beqS_iff v, beqSL_iff rest, and_assoc]
  | .call f as ks, b => by
    cases b <;> simp [beqS, beqS_iff f, beqSL_iff as, beqSKW_iff ks, and_assoc]
  | .starred v, b => by cases b <;> simp [beqS, beqS_iff v]
  | .unsupportedE, b => by cases b <;> simp [beqS]

theorem beqSO_iff : ∀ a b : Option ExprS, beqSO a b = true ↔ a = b
  | Option.none, b => by cases b <;> simp [beqSO]
  | some e, b => by cases b <;> simp [beqSO, beqS_iff e]

theorem beqSL_iff : ∀ a b : List ExprS, beqSL a b = true ↔ a = b
  | [], b => by cases b <;> simp [beqSL]
  | e :: es, b => by cases b <;> simp [beqSL, beqS_iff e, beqSL_iff es]

theorem beqSLO_iff : ∀ a b : List (Option ExprS), beqSLO a b = true ↔ a = b
  | [], b => by cases b <;> simp [beqSLO]
  | e :: es, b => by cases b <;> simp [beqSLO, beqSO_iff e, beqSLO_iff es]

theorem beqSKW_iff : ∀ a b : List (Option String × ExprS), beqSKW a b = true ↔ a = b
  | [], b => by cases b <;> simp [beqSKW]
  | (n, e) :: es, b => by
    cases b with
    | nil => simp [beqSKW]
    | cons p fs =>
      cases p with
      | mk o f => simp [beqSKW, beqS_iff e, beqSKW_iff es, Prod.ext_iff]

end

set_option maxHeartbeats 200000

instance : DecidableEq ExprS := fun a b => decidable_of_iff _ (beqS_iff a b)

mutual

/-- utils.copy_ast_without_context, composed with the ast.dump keying of
group_expressions: the node with the ctx fields removed and the identity and
position metadata gone. -/
def copy_ast_without_context : Expr → ExprS
  | .constant v _ => .constant v
  | .nameE i _ _ => .nameE i
  | .attributeE v a _ _ => .attributeE (copy_ast_without_context v) a
  | .subscript v i _ _ => .subscript (copy_ast_without_context v) (copy_ast_without_context i)
  | .sliceE a b c _ => .sliceE (copy_opt a) (copy_opt b) (copy_opt c)
  | .extSliceE _ => .extSliceE
  | .listE es _ _ => .listE (copy_list es)
  | .tupleE es _ _ => .tupleE (copy_list es)
  | .setE es _ => .setE (copy_list es)
  | .dictE ks vs _ => .dictE (copy_opt_list ks) (copy_list vs)
  | .unaryOp o e _ => .unaryOp o (copy_ast_without_context e)
  | .binOp l o r _ => .binOp (copy_ast_without_context l) o (copy_ast_without_context r)
  | .boolOp o v rest _ => .boolOp o (copy_ast_without_context v) (copy_list rest)
  | .call f as ks _ => .call (copy_ast_without_context f) (copy_list as) (copy_kw ks)
  | .starred v _ _ => .starred (copy_ast_without_context v)
  | .unsupportedE _ => .unsupportedE

def copy_opt : Option Expr → Option ExprS
  | Option.none => Option.none
  | some e => some (copy_ast_without_context e)

def copy_list : List Expr → List ExprS
  | [] => []
  | e :: es => copy_ast_without_context e :: copy_list es

def copy_opt_list : List (Option Expr) → List (Option ExprS)
  | [] => []
  | e :: es => copy_opt e :: copy_opt_list es

def copy_kw : List (Option String × Expr) → List (Option String × ExprS)
  | [] => []
  | (n, e) :: es => (n, copy_ast_without_context e) :: copy_kw es

end

/-- One step of the grouping fold of group_expressions: the
result.setdefault(dump, ([], value))[0].append(node) of the source.  When a
group with the same key exists, the node is appended to it and the stored
value is kept; otherwise a new group with this node and value is opened at
the end. -/
def insert_pair (acc : List (ExprS × (List Expr × Val))) (n : Expr) (v : Val) :
    List (ExprS × (List Expr × Val)) :=
  if acc.any (fun e => decide (e.1 = copy_ast_without_context n)) then
    acc.map (fun e =>
      if e.1 = copy_ast_without_context n then (e.1, (e.2.1 ++ [n], e.2.2)) else e)
  else acc ++ [(copy_ast_without_context n, ([n], v))]

/-- core.group_expressions: fold the pairs through the keyed dictionary and
return its values in insertion order. -/
def group_expressions (ps : List (Expr × Val)) : List (List Expr × Val) :=
  (ps.foldl (fun acc p => insert_pair acc p.1 p.2) []).map (fun e => e.2)

/-! ## The specification-side reference for boolean chains

Written from the words of the specification: operands are taken left to
right; as soon as the truth value of the chain is determined by the
short-circuit rule of the operator the chain stops, untouched operands
unevaluated; every operand that is evaluated must pass the allowed-type
check.  The code-side loop instead keeps iterating with the settled left
value; the equality of the two is the content of claim C6. -/

def bool_determined (op : BoolK) (left : Val) : Bool :=
  match op with
  | .orK => truthy left
  | .andK => !truthy left

def boolop_ref_fold (sess : Sess) : Nat → St → BoolK → Val → List Expr → (Except Fail Val) × St
  | 0, st, _, _, _ => (.error .fuelOut, st)
  | _ + 1, st, _, left, [] => (.ok left, st)
  | fuel + 1, st, op, left, r :: rs =>
    if bool_determined op left then (.ok left, st)
    else
      match getitem sess fuel st (some r) with
      | (.error e, st1) => (.error e, st1)
      | (.ok v, st1) =>
        match of_type v boolop_allowed with
        | .error e => (.error e, st1)
        | .ok newLeft => boolop_ref_fold sess fuel st1 op newLeft rs

def boolop_ref (sess : Sess) : Nat → St → BoolK → Expr → List Expr → (Except Fail Val) × St
  | 0, st, _, _, _ => (.error .fuelOut, st)
  | fuel + 1, st, op, first, rest =>
    match getitem sess fuel st (some first) with
    | (.error e, st1) => (.error e, st1)
    | (.ok v, st1) =>
      match of_type v boolop_allowed with
      | .error e => (.error e, st1)
      | .ok left => boolop_ref_fold sess fuel st1 op left rest

end PureEval

namespace PureEval

/-! ## Concrete worlds and sessions used by the claims -/

/-- A session with an empty name environment and no resolvable attributes. -/
def empty_sess : Sess := ⟨fun _ => none, fun _ _ => .cannotEvalG⟩

/-- The expression `{**{}}`: a dict display with one unpacking entry, whose
keys list holds the non-expression None. -/
def dict_splat : Expr := .dictE [Option.none] [.dictE [] [] 1] 0

/-- A second instance of the same shape, used for the repeated-evaluation
counterexample. -/
def dict_splat2 : Expr := .dictE [Option.none] [.dictE [] [] 6] 5

/-- The world of test_slots: object 1 is an instance of class 10, which has
__slots__ = [x] and hence no instance dictionary; 20 is the member
descriptor for x, of class 30 (the member descriptor type, trusted), whose
read hook raises AttributeError because the slot is unset; 31 and 32 are the
read and write hooks of the member descriptor type; 40 is object and 50 is
type. -/
def w_slot : World where
  isType := fun n => n = 10 || n = 30 || n = 40 || n = 50
  typeOf := fun n => if n = 1 then 10 else if n = 20 then 30 else 50
  mro := fun n =>
    if n = 10 then [10, 40]
    else if n = 30 then [30, 40]
    else if n = 40 then [40]
    else if n = 50 then [50, 40]
    else []
  cdict := fun n a =>
    if n = 10 && a = "x" then some 20
    else if n = 30 && a = "__get__" then some 31
    else if n = 30 && a = "__set__" then some 32
    else none
  instDict := fun _ => none
  kind := fun n => if n = 30 then .memberD else .plainD
  descName := fun _ => none
  objclass := fun _ => none
  getRes := fun _ _ => .error ()

/-- A session whose environment binds a to the slotted instance of w_slot. -/
def sess_slot : Sess :=
  ⟨fun s => if s = "a" then some (.objV 1) else none, ga_of_world w_slot⟩

/-- The world of test_metaclass_with_descriptor: class 10 has metaclass 20;
the dictionary of 20 maps d to 60, an instance of the user-defined
descriptor class 70, which defines a read hook 71; 40 is object, 50 is
type. -/
def w_meta : World where
  isType := fun n => n = 10 || n = 20 || n = 40 || n = 50 || n = 70
  typeOf := fun n =>
    if n = 10 then 20 else if n = 60 then 70 else 50
  mro := fun n =>
    if n = 10 then [10, 40]
    else if n = 20 then [20, 50, 40]
    else if n = 40 then [40]
    else if n = 50 then [50, 40]
    else if n = 70 then [70, 40]
    else []
  cdict := fun n a =>
    if n = 20 && a = "d" then some 60
    else if n = 70 && a = "__get__" then some 71
    else none
  instDict := fun _ => none
  kind := fun _ => .plainD
  descName := fun _ => none
  objclass := fun _ => none
  getRes := fun _ _ => .error ()

/-! ## Claim C4 -/

/-- C4: partially a code bug.  The first conjunct shows the failing input:
the valid expression node `{**{}}` makes evaluate raise TypeError (the
dict-unpacking keys list holds None, which the container handler passes to
getitem, whose non-expression guard fires), though the claim — and
test_unsupported, which expects CannotEval here — allow only CannotEvaluate
as the failure outcome for valid expression nodes.  The second conjunct
shows the confirmed half: an input that is not an expression node (the none
argument) raises the distinct programmer-misuse TypeError without touching
the state.  The third distinguishes the two outcomes. -/
theorem C4_failure_outcomes :
    getitem empty_sess 9 ⟨[], 0⟩ (some dict_splat) = (.error .typeError, ⟨[], 1⟩)
    ∧ getitem empty_sess 9 ⟨[], 0⟩ Option.none = (.error .typeError, ⟨[], 0⟩)
    ∧ Fail.typeError ≠ Fail.cannotEval :=
  ⟨rfl, rfl, by decide⟩

/-! ## Claim C3 -/

/-- C3 counterexample: the claim as stated fails on the code.  Evaluating
`{**{}}` twice on the same session raises TypeError both times — an outcome
that is neither a value nor CannotEvaluate — and the second call is not
answered from the memo table: nothing was cached (the cache stays empty) and
the resolution logic runs again, visible as the handle counter rising from 1
to 2. -/
theorem C3_not_always_memoised :
    getitem empty_sess 12 ⟨[], 0⟩ (some dict_splat2) = (.error .typeError, ⟨[], 1⟩)
    ∧ getitem empty_sess 12 ⟨[], 1⟩ (some dict_splat2) = (.error .typeError, ⟨[], 2⟩)
    ∧ (2 : Nat) ≠ 1 :=
  ⟨rfl, rfl, by decide⟩

/-- C3 as amended: for every node and session, when a call to evaluate
completes with a value or with CannotEvaluate, any later call on the
resulting state returns the same outcome and the same state — in particular
the handle counter does not move, so the resolution logic is not re-invoked:
the answer comes from the memo table. -/
theorem C3_memo_idempotent (sess : Sess) (fuel g : Nat) (st st1 : St) (e : Expr)
    (r : Except Fail Val)
    (h : getitem sess fuel st (some e) = (r, st1))
    (hr : (∃ v, r = Except.ok v) ∨ r = Except.error Fail.cannotEval) :
    getitem sess (g + 1) st1 (some e) = (r, st1) := by
  cases fuel with
  | zero =>
    simp only [getitem, Prod.mk.injEq] at h
    obtain ⟨rfl, rfl⟩ := h
    rcases hr with ⟨v, hv⟩ | hv <;> simp_all
  | succ f =>
    simp only [getitem] at h ⊢
    split at h
    case _ v heq =>
      obtain ⟨rfl, rfl⟩ := Prod.mk.injEq .. |>.mp h
      rw [heq]
    case _ heq =>
      obtain ⟨rfl, rfl⟩ := Prod.mk.injEq .. |>.mp h
      rw [heq]
    case _ heq =>
      split at h
      case _ v st2 hh =>
        obtain ⟨rfl, rfl⟩ := Prod.mk.injEq .. |>.mp h
        simp [cache_get]
      case _ st2 hh =>
        obtain ⟨rfl, rfl⟩ := Prod.mk.injEq .. |>.mp h
        simp [cache_get]
      case _ e2 st2 hh hne =>
        obtain ⟨rfl, rfl⟩ := Prod.mk.injEq .. |>.mp h
        rcases hr with ⟨v, hv⟩ | hv <;> simp_all

/-- A session binding a to the integer 5, for the memo witness. -/
def sess_name : Sess := ⟨fun s => if s = "a" then some (.intV 5) else none, fun _ _ => .cannotEvalG⟩

theorem C3_memo_witness :
    getitem sess_name 5 ⟨[], 0⟩ (some (.nameE "a" .load 1)) =
      (.ok (.intV 5), ⟨[(1, some (.intV 5))], 1⟩)
    ∧ getitem sess_name 7 ⟨[(1, some (.intV 5))], 1⟩ (some (.nameE "a" .load 1)) =
      (.ok (.intV 5), ⟨[(1, some (.intV 5))], 1⟩) :=
  ⟨rfl, C3_memo_idempotent sess_name 5 6 ⟨[], 0⟩ _ _ _ rfl (Or.inl ⟨_, rfl⟩)⟩

/-! ## Claim C2 -/

/-- C2: code bug.  On the world of test_slots — a slotted class whose member
descriptor is trusted but whose slot is unset — the resolver invokes the
read hook and the AttributeError the hook raises propagates out of
getattr_static (first conjunct) and out of evaluate on `a.x` (second
conjunct) instead of becoming CannotEvaluate, which is what the claim, the
specification and test_slots require. -/
theorem C2_attribute_error_escapes :
    getattr_static w_slot 1 "x" = (.attrErrR, [(20, 1)])
    ∧ (getitem sess_slot 9 ⟨[], 0⟩ (some (.attributeE (.nameE "a" .load 1) "x" .load 2))).1 =
        .error .attrError
    ∧ Fail.attrError ≠ Fail.cannotEval :=
  ⟨rfl, rfl, by decide⟩

/-! ## Claim C8 -/

/-- C8: code bug.  On the world of test_metaclass_with_descriptor, the
attribute d of class 10 is found only through the metaclass walk; the stored
value 60 is a descriptor (its class defines a read hook, first conjunct) of
an untrusted kind (second conjunct), yet the walk returns it raw with no
descriptor resolution and an empty invocation log (fourth conjunct), while
the claim — and the test, which expects CannotEval — require the walk to
repeat the descriptor-precedence and trusted-descriptor rules. -/
theorem C8_metaclass_walk_skips_descriptor_rules :
    check_class w_meta (w_meta.typeOf 60) "__get__" = some 71
    ∧ trusted w_meta 60 = false
    ∧ check_class w_meta 10 "d" = Option.none
    ∧ getattr_static w_meta 10 "d" = (.okR 60, []) :=
  ⟨rfl, rfl, rfl, rfl⟩

end PureEval

namespace PureEval

/-! ## Claim C6 -/

/-- The operand-skipping condition of the source loop agrees with the
determination predicate of the reference. -/
theorem keep_eq_determined (op : BoolK) (left : Val) :
    (match op with | BoolK.orK => truthy left | BoolK.andK => !truthy left) =
      bool_determined op left := by
  cases op <;> rfl

/-- Once the truth value of the chain is settled, the remaining iterations
of the source loop change nothing: the settled left value short-circuits
every further operand unevaluated. -/
theorem boolop_fold_determined (sess : Sess) (op : BoolK) :
    ∀ (rest : List Expr) (fuel : Nat) (st : St) (left : Val),
      bool_determined op left = true → rest.length < fuel →
      boolop_fold sess fuel st op left rest = (.ok left, st) := by
  intro rest
  induction rest with
  | nil =>
    intro fuel st left _ hf
    match fuel, hf with
    | f + 1, _ => simp [boolop_fold]
  | cons r rs ih =>
    intro fuel st left hd hf
    match fuel, hf with
    | f + 1, hf =>
      simp only [boolop_fold]
      rw [keep_eq_determined, hd, if_pos rfl]
      exact ih f st left hd (by simpa using Nat.lt_of_succ_lt_succ hf)

/-- The loop of _handle_boolop computes exactly the reference
short-circuit evaluation, given fuel above the operand count. -/
theorem boolop_fold_eq_ref (sess : Sess) (op : BoolK) :
    ∀ (rest : List Expr) (fuel : Nat) (st : St) (left : Val),
      rest.length < fuel →
      boolop_fold sess fuel st op left rest = boolop_ref_fold sess fuel st op left rest := by
  intro rest
  induction rest with
  | nil =>
    intro fuel st left hf
    match fuel, hf with
    | f + 1, _ => simp [boolop_fold, boolop_ref_fold]
  | cons r rs ih =>
    intro fuel st left hf
    match fuel, hf with
    | f + 1, hf =>
      have hlt : rs.length < f := by simpa using Nat.lt_of_succ_lt_succ hf
      simp only [boolop_fold, boolop_ref_fold]
      rw [keep_eq_determined]
      by_cases hd : bool_determined op left = true
      · rw [hd, if_pos rfl, if_pos rfl]
        exact boolop_fold_determined sess op rs f st left hd hlt
      · rw [Bool.not_eq_true] at hd
        rw [hd, if_neg (by simp), if_neg (by simp)]
        cases hg : getitem sess f st (some r) with
        | mk res st1 =>
          cases res with
          | error e => simp
          | ok v =>
            cases ho : of_type v boolop_allowed with
            | error e => simp [ho]
            | ok newLeft => simpa [ho] using ih f st1 newLeft hlt

/-- C6: _handle_boolop equals the reference evaluator written from the
specification words — operands left to right, stop as soon as the truth
value is determined by the short-circuit rule of the operator (so a chain
like x or y with truthy x succeeds even if y cannot be evaluated), and every
operand that is evaluated must pass the fixed allowed-type gate, a
disallowed type surfacing as CannotEval. -/
theorem C6_boolop_short_circuit (sess : Sess) (fuel : Nat) (st : St) (op : BoolK)
    (first : Expr) (rest : List Expr) (hfuel : rest.length < fuel) :
    handle_boolop sess (fuel + 1) st op first rest =
      boolop_ref sess (fuel + 1) st op first rest := by
  simp only [handle_boolop, boolop_ref]
  cases hg : getitem sess fuel st (some first) with
  | mk res st1 =>
    cases res with
    | error e => simp
    | ok v =>
      cases ho : of_type v boolop_allowed with
      | error e => simp [ho]
      | ok left => simpa [ho] using boolop_fold_eq_ref sess op rest fuel st1 left hfuel

/-- Session for the boolean-chain witness. -/
def sess_bool : Sess := ⟨fun s => if s = "a" then some (.intV 5) else none, fun _ _ => .cannotEvalG⟩

/-- The chain a or zz with a = 5 truthy and zz unbound: equal to the
reference and successfully short-circuits to 5 though zz cannot be
evaluated. -/
theorem C6_witness :
    handle_boolop sess_bool 9 ⟨[], 0⟩ .orK (.nameE "a" .load 1) [.nameE "zz" .load 2] =
      boolop_ref sess_bool 9 ⟨[], 0⟩ .orK (.nameE "a" .load 1) [.nameE "zz" .load 2]
    ∧ (handle_boolop sess_bool 9 ⟨[], 0⟩ .orK (.nameE "a" .load 1) [.nameE "zz" .load 2]).1 =
        .ok (.intV 5)
    ∧ (getitem sess_bool 8 ⟨[], 0⟩ (some (.nameE "zz" .load 2))).1 = .error .cannotEval :=
  ⟨C6_boolop_short_circuit sess_bool 8 ⟨[], 0⟩ .orK _ _ (by decide), rfl, rfl⟩

end PureEval

namespace PureEval

/-! ## Claim C5 -/

/-- C5: subscripting a mapping.  Given the base evaluating to a dictionary
and the index operand resolving to a value, the handler succeeds with the
stored value exactly when the index passes safe_hash_key, the size of the
mapping is below the fixed 10000 threshold and every existing key passes
safe_hash_key; at or above the threshold, with any unsafe key anywhere, or
with the index itself unsafe, it fails closed with CannotEval, and a missing
key is CannotEval as well.  The second conjunct notes that a slice value is
never a safe hash key, so a slice index always fails on a mapping. -/
theorem C5_dict_subscript (sess : Sess) (fuel : Nat) (st st1 st2 : St)
    (base idxe : Expr) (entries : List (Val × Val)) (ix : Val)
    (hbase : getitem sess fuel st (some base) = (.ok (.dictV entries), st1))
    (hidx : eval_sub_index sess fuel st1 idxe = (.ok ix, st2)) :
    (handle_subscript sess (fuel + 1) st base idxe =
      if safe_hash_key fuel ix = true ∧ entries.length < 10000
          ∧ (∀ kv ∈ entries, safe_hash_key fuel kv.1 = true) then
        ((match dict_get fuel entries ix with
          | some v => Except.ok v
          | Option.none => Except.error Fail.cannotEval), st2)
      else (Except.error Fail.cannotEval, st2))
    ∧ ∀ (f2 : Nat) (lo hi stp : Option Val), safe_hash_key f2 (.sliceV lo hi stp) = false := by
  constructor
  · simp only [handle_subscript, hbase, hidx]
    rw [show is_any (Val.dictV entries).ty seq_types = false from rfl]
    simp only [Bool.false_eq_true, if_false]
    have hiff :
        (safe_hash_key fuel ix && decide (entries.length < 10000)
          && entries.all fun kv => safe_hash_key fuel kv.1) = true ↔
        (safe_hash_key fuel ix = true ∧ entries.length < 10000
          ∧ (∀ kv ∈ entries, safe_hash_key fuel kv.1 = true)) := by
      simp [List.all_eq_true, and_assoc]
    simp only [hiff, subscript_apply]
  · intro f2 lo hi stp
    cases f2 with
    | zero => rfl
    | succ f3 => rfl

/-- A session binding d to the dictionary with the single entry 1 to 2. -/
def sess_dict : Sess :=
  ⟨fun s => if s = "d" then some (.dictV [(.intV 1, .intV 2)]) else none, fun _ _ => .cannotEvalG⟩

theorem C5_witness :
    handle_subscript sess_dict 9 ⟨[], 0⟩ (.nameE "d" .load 1) (.constant (.intL 1) 2) =
      (.ok (.intV 2), ⟨[(2, some (.intV 1)), (1, some (.dictV [(.intV 1, .intV 2)]))], 2⟩) :=
  ((C5_dict_subscript sess_dict 8 ⟨[], 0⟩ ⟨[(1, some (.dictV [(.intV 1, .intV 2)]))], 1⟩
      ⟨[(2, some (.intV 1)), (1, some (.dictV [(.intV 1, .intV 2)]))], 2⟩
      (.nameE "d" .load 1) (.constant (.intL 1) 2)
      [(.intV 1, .intV 2)] (.intV 1) rfl rfl).1).trans
    (by rfl)

/-! ## Claim C10 -/

/-- Native sequence indexing in terms of the euclidean remainder: the index
is evaluable exactly when it lies in the window from minus the length to the
length minus one, and the element selected is the one at the wrapped
position. -/
theorem seq_get_emod (v : Val) (i : Int) (n : Nat) (hlen : py_len v = some n) :
    seq_get v i =
      if -(n : Int) ≤ i ∧ i < (n : Int) then .ok (seq_elem v ((i % (n : Int)).toNat))
      else .error .cannotEval := by
  simp only [seq_get, hlen]
  by_cases hneg : i < 0
  · simp only [if_pos hneg]
    split
    next h =>
      rw [if_pos (by omega)]
      have h1 : (i + (n : Int)) % (n : Int) = i + (n : Int) :=
        Int.emod_eq_of_lt h.1 h.2
      have h2 : (i + (n : Int) * 1) % (n : Int) = i % (n : Int) :=
        Int.add_mul_emod_self_left i ((n : Int)) 1
      rw [mul_one] at h2
      rw [← h2, h1]
    next h =>
      rw [if_neg (by omega)]
  · simp only [if_neg hneg]
    split
    next h =>
      rw [if_pos (by omega)]
      rw [Int.emod_eq_of_lt h.1 h.2]
    next h =>
      rw [if_neg (by omega)]

/-- C10: for a base of exact sequence type (list, tuple, str, bytes,
bytearray) and an index of exact type int or bool (as_int gives its integer
value), subscripting follows full native sequence indexing: negative indices
count from the end, and CannotEval arises exactly when the index falls
outside the window from minus the length to the length minus one. -/
theorem C10_sequence_index (sess : Sess) (fuel : Nat) (st st1 st2 : St)
    (base idxe : Expr) (sv iv : Val) (i : Int) (n : Nat)
    (hbase : getitem sess fuel st (some base) = (.ok sv, st1))
    (hty : is_any sv.ty seq_types = true)
    (hlen : py_len sv = some n)
    (hidx : eval_sub_index sess fuel st1 idxe = (.ok iv, st2))
    (hint : as_int iv = some i) :
    handle_subscript sess (fuel + 1) st base idxe =
      if -(n : Int) ≤ i ∧ i < (n : Int) then
        (Except.ok (seq_elem sv ((i % (n : Int)).toNat)), st2)
      else (Except.error Fail.cannotEval, st2) := by
  simp only [handle_subscript, hbase, hidx, hty, if_true]
  cases iv with
  | intV m =>
    simp only [as_int, Option.some.injEq] at hint
    subst hint
    have hof : of_type (Val.intV m) [Ty.intT, Ty.boolT] = Except.ok (Val.intV m) := rfl
    cases sv <;> simp [Val.ty, is_any, seq_types] at hty <;>
      simp only [hof, subscript_apply, as_int] <;>
      rw [seq_get_emod _ _ _ hlen, apply_ite (fun r => (r, st2))]
  | boolV b =>
    simp only [as_int, Option.some.injEq] at hint
    subst hint
    have hof : of_type (Val.boolV b) [Ty.intT, Ty.boolT] = Except.ok (Val.boolV b) := rfl
    cases sv <;> simp [Val.ty, is_any, seq_types] at hty <;>
      simp only [hof, subscript_apply, as_int] <;>
      rw [seq_get_emod _ _ _ hlen, apply_ite (fun r => (r, st2))]
  | floatV q => simp [as_int] at hint
  | complexV a b => simp [as_int] at hint
  | strV s => simp [as_int] at hint
  | bytesV b => simp [as_int] at hint
  | bytearrayV b => simp [as_int] at hint
  | noneV => simp [as_int] at hint
  | listV xs => simp [as_int] at hint
  | tupleV xs => simp [as_int] at hint
  | setV xs => simp [as_int] at hint
  | frozensetV xs => simp [as_int] at hint
  | dictV es => simp [as_int] at hint
  | rangeV a b c => simp [as_int] at hint
  | sliceV a b c => simp [as_int] at hint
  | builtinV f => simp [as_int] at hint
  | typeV c => simp [as_int] at hint
  | objV o => simp [as_int] at hint

/-- A session binding xs to the list with elements 10 and 20. -/
def sess_seq : Sess :=
  ⟨fun s => if s = "xs" then some (.listV [.intV 10, .intV 20]) else none, fun _ _ => .cannotEvalG⟩

/-- The subscript xs[-1] on a two-element list: the negative index counts
from the end and yields the last element. -/
theorem C10_witness :
    handle_subscript sess_seq 9 ⟨[], 0⟩ (.nameE "xs" .load 1)
        (.unaryOp .usub (.constant (.intL 1) 2) 3) =
      (.ok (.intV 20),
        ⟨[(3, some (.intV (-1))), (1, some (.listV [.intV 10, .intV 20]))], 2⟩) :=
  (C10_sequence_index sess_seq 8 ⟨[], 0⟩ ⟨[(1, some (.listV [.intV 10, .intV 20]))], 1⟩
      ⟨[(3, some (.intV (-1))), (1, some (.listV [.intV 10, .intV 20]))], 2⟩
      (.nameE "xs" .load 1) (.unaryOp .usub (.constant (.intL 1) 2) 3)
      (.listV [.intV 10, .intV 20]) (.intV (-1))
      (-1) 2 rfl rfl rfl rfl rfl).trans (by rfl)

end PureEval

namespace PureEval

/-! ## Claim C7 -/

/-- Every read hook the resolver ever invokes belongs to a descriptor of a
trusted built-in shape: the invocation log of resolve_descriptor is empty
unless the descriptor passes the of_type gate. -/
theorem resolve_descriptor_log (w : World) (d o : Nat) (p : Nat × Nat)
    (h : p ∈ (resolve_descriptor w d o).2) : trusted w d = true ∧ p = (d, o) := by
  by_cases ht : trusted w d = true
  · refine ⟨ht, ?_⟩
    simp only [resolve_descriptor, ht, if_true] at h
    cases hg : w.getRes d o with
    | ok v => rw [hg] at h; simpa using h
    | error e => rw [hg] at h; simpa using h
  · rw [Bool.not_eq_true] at ht
    simp [resolve_descriptor, ht] at h

/-- The metaclass walk never invokes a read hook. -/
theorem metaclass_walk_log (w : World) (attr : String) :
    ∀ l : List Nat, (metaclass_walk w attr l).2 = [] := by
  intro l
  induction l with
  | nil => rfl
  | cons entry rest ih =>
    simp only [metaclass_walk]
    split
    · cases w.cdict entry attr <;> simp_all
    · simp_all

/-- Any invocation logged by a full resolution run is of a trusted
descriptor. -/
theorem getattr_static_log_trusted (w : World) (obj : Nat) (attr : String)
    (p : Nat × Nat) (h : p ∈ (getattr_static w obj attr).2) :
    trusted w p.1 = true := by
  simp only [getattr_static] at h
  split at h
  case _ kv heq1 heq2 =>
    split at h
    · obtain ⟨ht, hp⟩ := resolve_descriptor_log w kv obj p h
      rw [hp]; exact ht
    · simp at h
  case _ => simp at h
  case _ kv heq1 heq2 =>
    split at h
    · simp at h
    · obtain ⟨ht, hp⟩ := resolve_descriptor_log w kv obj p h
      rw [hp]; exact ht
  case _ =>
    split at h
    · rw [metaclass_walk_log] at h
      simp at h
    · simp at h

/-- C7: precedence and safety of descriptor resolution.  When both a
per-instance entry and a class-hierarchy entry exist for the name, the
hierarchy entry wins exactly when it is a data descriptor (its class defines
both the read and the write hook), in which case the resolver invokes it via
resolve_descriptor; otherwise the instance entry is returned uninvoked.  An
untrusted descriptor is refused with CannotEval and an empty invocation log —
its read hook is never run — and, in full generality, every invocation any
resolution run ever logs is of one of the three trusted built-in descriptor
shapes. -/
theorem C7_descriptor_precedence (w : World) (obj : Nat) (attr : String) (iv kv : Nat)
    (hnt : w.isType obj = false)
    (hguard : instance_guard w (w.typeOf obj) = true)
    (hinst : check_instance w obj attr = some iv)
    (hklass : check_class w (w.typeOf obj) attr = some kv) :
    (is_data w kv = true → getattr_static w obj attr = resolve_descriptor w kv obj)
    ∧ (is_data w kv = false → getattr_static w obj attr = (.okR iv, []))
    ∧ (∀ d o2, trusted w d = false → resolve_descriptor w d o2 = (.cannotEvalR, []))
    ∧ (∀ w2 o2 a2 d o3, (d, o3) ∈ (getattr_static w2 o2 a2).2 → trusted w2 d = true) := by
  refine ⟨?_, ?_, ?_, ?_⟩
  · intro hd
    simp [getattr_static, hnt, hguard, hinst, hklass, hd]
  · intro hd
    simp [getattr_static, hnt, hguard, hinst, hklass, hd]
  · intro d o2 ht
    simp [resolve_descriptor, ht]
  · intro w2 o2 a2 d o3 h
    exact getattr_static_log_trusted w2 o2 a2 (d, o3) h

/-- The world of test_descriptor: object 1 of class 10 has the instance
entry x = 9 while class 10 stores the member descriptor 20 for x (class 30,
a trusted data-descriptor shape with read hook 31 and write hook 32);
reading the slot yields 7. -/
def w_both : World where
  isType := fun n => n = 10 || n = 30 || n = 40 || n = 50
  typeOf := fun n => if n = 1 then 10 else if n = 20 then 30 else 50
  mro := fun n =>
    if n = 10 then [10, 40]
    else if n = 30 then [30, 40]
    else if n = 40 then [40]
    else if n = 50 then [50, 40]
    else []
  cdict := fun n a =>
    if n = 10 && a = "x" then some 20
    else if n = 30 && a = "__get__" then some 31
    else if n = 30 && a = "__set__" then some 32
    else none
  instDict := fun n => if n = 1 then some [("x", 9)] else none
  kind := fun n => if n = 30 then .memberD else .plainD
  descName := fun _ => none
  objclass := fun _ => none
  getRes := fun d o => if d = 20 && o = 1 then .ok 7 else .error ()

theorem C7_witness :
    getattr_static w_both 1 "x" = resolve_descriptor w_both 20 1
    ∧ resolve_descriptor w_both 20 1 = (.okR 7, [(20, 1)]) :=
  ⟨(C7_descriptor_precedence w_both 1 "x" 9 20 rfl rfl rfl rfl).1 rfl, rfl⟩

end PureEval

namespace PureEval

/-! ## Claim C1 -/

/-- Whether the callee value is an allowlisted built-in. -/
def allowlisted_callee : Val → Bool
  | .builtinV b => allowlisted b
  | _ => false

/-- C1 (against the call handler modelled from the spec): a call succeeds
exactly as the allowlisted built-in applied to the evaluated positional
argument values, and every disallowed form fails with CannotEval — keyword
arguments, starred arguments, a callee outside the allowlist, and an
exception from the built-in itself (the none result of apply_builtin). -/
theorem C1_call_allowlist (sess : Sess) (fuel : Nat) (st st1 st2 : St) (func : Expr)
    (args : List Expr) (kwords : List (Option String × Expr)) (f : Val)
    (b : BuiltinF) (vs : List Val) :
    (kwords ≠ [] → handle_call sess (fuel + 1) st func args kwords = (.error .cannotEval, st))
    ∧ (kwords = [] → args.any is_starred = true →
        handle_call sess (fuel + 1) st func args kwords = (.error .cannotEval, st))
    ∧ (kwords = [] → args.any is_starred = false →
        getitem sess fuel st (some func) = (.ok (.builtinV b), st1) →
        allowlisted b = true →
        eval_args sess fuel st1 args = (.ok vs, st2) →
        handle_call sess (fuel + 1) st func args kwords =
          ((match apply_builtin b vs with
            | some v => Except.ok v
            | Option.none => Except.error Fail.cannotEval), st2))
    ∧ (kwords = [] → args.any is_starred = false →
        getitem sess fuel st (some func) = (.ok f, st1) →
        allowlisted_callee f = false →
        handle_call sess (fuel + 1) st func args kwords = (.error .cannotEval, st1)) := by
  refine ⟨?_, ?_, ?_, ?_⟩
  · intro hk
    simp [handle_call, List.isEmpty_iff, hk]
  · intro hk hs
    simp [handle_call, List.isEmpty_iff, hk, hs]
  · intro hk hs hf hb ha
    simp [handle_call, List.isEmpty_iff, hk, hs, hf, hb, ha]
  · intro hk hs hf hb
    cases f <;> simp_all [handle_call, List.isEmpty_iff, allowlisted_callee]

/-- A session binding len to the built-in length function and print to a
built-in outside the allowlist. -/
def sess_call : Sess :=
  ⟨fun s => if s = "len" then some (.builtinV .lenB)
            else if s = "print" then some (.builtinV .printB)
            else none,
   fun _ _ => .cannotEvalG⟩

/-- len([7]) evaluates to 1 through the allowlisted path, while print(7) is
refused. -/
theorem C1_witness :
    handle_call sess_call 9 ⟨[], 0⟩ (.nameE "len" .load 1)
        [.listE [.constant (.intL 7) 2] .load 3] [] =
      (.ok (.intV 1),
        ⟨[(3, some (.listV [.intV 7])), (1, some (.builtinV .lenB))], 2⟩)
    ∧ handle_call sess_call 9 ⟨[], 0⟩ (.nameE "print" .load 4)
        [.constant (.intL 7) 5] [] =
      (.error .cannotEval, ⟨[(4, some (.builtinV .printB))], 1⟩) :=
  ⟨((C1_call_allowlist sess_call 8 ⟨[], 0⟩
        ⟨[(1, some (.builtinV .lenB))], 1⟩
        ⟨[(3, some (.listV [.intV 7])), (1, some (.builtinV .lenB))], 2⟩
        (.nameE "len" .load 1) [.listE [.constant (.intL 7) 2] .load 3] []
        (.builtinV .lenB) .lenB [.listV [.intV 7]]).2.2.1
      rfl rfl rfl rfl rfl).trans (by rfl),
   ((C1_call_allowlist sess_call 8 ⟨[], 0⟩
        ⟨[(4, some (.builtinV .printB))], 1⟩
        ⟨[(4, some (.builtinV .printB))], 1⟩
        (.nameE "print" .load 4) [.constant (.intL 7) 5] []
        (.builtinV .printB) .printB []).2.2.2
      rfl rfl rfl rfl)⟩

end PureEval

namespace PureEval

/-! ## Claim C9: the grouping fold

To reason about the insertion-order dictionary fold of group_expressions, it
is rewritten as a recursion over the input pairs: the first pair opens the
first group, holding every later node with the same key; the remaining
pairs, with that key removed, are grouped recursively.  The fold provably
computes this recursion. -/

/-- The nodes of the input pairs bearing a given key, in input order. -/
def nodes_of (k : ExprS) (ps : List (Expr × Val)) : List Expr :=
  (ps.filter (fun p => decide (copy_ast_without_context p.1 = k))).map Prod.fst

def fresh_groups : List (Expr × Val) → List (ExprS × (List Expr × Val))
  | [] => []
  | p :: ps =>
    (copy_ast_without_context p.1,
      (p.1 :: nodes_of (copy_ast_without_context p.1) ps, p.2)) ::
      fresh_groups (ps.filter
        (fun q => !decide (copy_ast_without_context q.1 = copy_ast_without_context p.1)))
termination_by l => l.length
decreasing_by exact Nat.lt_succ_of_le (List.length_filter_le _ _)

/-- Absorbing a list of pairs into existing groups: every group takes the
later nodes with its key, and the leftover keys open fresh groups. -/
def merge_acc : List (ExprS × (List Expr × Val)) → List (Expr × Val) →
    List (ExprS × (List Expr × Val))
  | [], ps => fresh_groups ps
  | (k, g) :: acc, ps =>
    (k, (g.1 ++ nodes_of k ps, g.2)) ::
      merge_acc acc (ps.filter (fun q => !decide (copy_ast_without_context q.1 = k)))

theorem merge_acc_nil : ∀ acc, merge_acc acc [] = acc := by
  intro acc
  induction acc with
  | nil => simp [merge_acc, fresh_groups]
  | cons kg rest ih =>
    cases kg with
    | mk k g => simp [merge_acc, nodes_of, ih]

theorem insert_pair_keys (acc : List (ExprS × (List Expr × Val))) (n : Expr) (v : Val) :
    (insert_pair acc n v).map Prod.fst =
      if acc.any (fun e => decide (e.1 = copy_ast_without_context n)) then
        acc.map Prod.fst
      else acc.map Prod.fst ++ [copy_ast_without_context n] := by
  unfold insert_pair
  split
  case isTrue h =>
    rw [List.map_map]
    apply List.map_congr_left
    intro e _
    by_cases hc : e.1 = copy_ast_without_context n <;> simp [Function.comp, hc]
  case isFalse h => simp

theorem insert_pair_nodup (acc : List (ExprS × (List Expr × Val))) (n : Expr) (v : Val)
    (h : (acc.map Prod.fst).Nodup) : ((insert_pair acc n v).map Prod.fst).Nodup := by
  rw [insert_pair_keys]
  split
  case isTrue _ => exact h
  case isFalse hany =>
    rw [List.nodup_append]
    refine ⟨h, List.nodup_singleton _, ?_⟩
    intro k hk hk2
    simp only [List.mem_singleton] at hk2
    subst hk2
    simp only [List.any_eq_true, decide_eq_true_eq] at hany
    simp only [List.mem_map] at hk
    obtain ⟨e, he, hke⟩ := hk
    exact hany ⟨e, he, hke⟩

theorem insert_pair_cons_ne (k : ExprS) (g : List Expr × Val)
    (acc : List (ExprS × (List Expr × Val))) (n : Expr) (v : Val)
    (hne : k ≠ copy_ast_without_context n) :
    insert_pair ((k, g) :: acc) n v = (k, g) :: insert_pair acc n v := by
  unfold insert_pair
  simp only [List.any_cons, List.map_cons]
  rw [show (decide ((k, g).1 = copy_ast_without_context n)) = false by simp [hne]]
  simp only [Bool.false_or]
  split <;> simp [hne]

theorem insert_pair_cons_eq (k : ExprS) (g : List Expr × Val)
    (acc : List (ExprS × (List Expr × Val))) (n : Expr) (v : Val)
    (hk : k = copy_ast_without_context n)
    (hnot : copy_ast_without_context n ∉ acc.map Prod.fst) :
    insert_pair ((k, g) :: acc) n v = (k, (g.1 ++ [n], g.2)) :: acc := by
  unfold insert_pair
  simp only [List.any_cons, List.map_cons]
  rw [show (decide ((k, g).1 = copy_ast_without_context n)) = true by simp [hk]]
  simp only [Bool.true_or, if_true]
  rw [if_pos hk]
  congr 1
  have hmap : ∀ e ∈ acc,
      (if e.1 = copy_ast_without_context n then (e.1, (e.2.1 ++ [n], e.2.2)) else e) = e := by
    intro e he
    have hne : e.1 ≠ copy_ast_without_context n := by
      intro hc
      exact hnot (List.mem_map.mpr ⟨e, he, hc⟩)
    simp [hne]
  rw [List.map_congr_left hmap]
  simp

end PureEval

namespace PureEval

theorem nodes_of_cons (k : ExprS) (p : Expr × Val) (ps : List (Expr × Val)) :
    nodes_of k (p :: ps) =
      if copy_ast_without_context p.1 = k then p.1 :: nodes_of k ps else nodes_of k ps := by
  by_cases h : copy_ast_without_context p.1 = k <;>
    simp [nodes_of, List.filter_cons, h]

theorem nodes_of_filter_ne (k k0 : ExprS) (hne : k ≠ k0) (ps : List (Expr × Val)) :
    nodes_of k (ps.filter
      (fun q => !decide (copy_ast_without_context q.1 = k0))) = nodes_of k ps := by
  simp only [nodes_of, List.filter_filter]
  congr 1
  apply List.filter_congr
  intro p _
  by_cases h : copy_ast_without_context p.1 = k
  · have h2 : copy_ast_without_context p.1 ≠ k0 := by rw [h]; exact hne
    simp [h, h2, hne]
  · simp [h]

theorem merge_insert : ∀ (acc : List (ExprS × (List Expr × Val))) (p : Expr × Val)
    (ps : List (Expr × Val)), (acc.map Prod.fst).Nodup →
    merge_acc (insert_pair acc p.1 p.2) ps = merge_acc acc (p :: ps) := by
  intro acc
  induction acc with
  | nil =>
    intro p ps _
    simp only [insert_pair, List.any_nil, Bool.false_eq_true, if_false, List.nil_append]
    simp only [merge_acc, fresh_groups]
    simp [nodes_of_cons]
  | cons kg acc2 ih =>
    rintro p ps hnd
    obtain ⟨k0, g0⟩ := kg
    simp only [List.map_cons, List.nodup_cons] at hnd
    obtain ⟨hk0, hnd2⟩ := hnd
    by_cases hk : k0 = copy_ast_without_context p.1
    · have hnot : copy_ast_without_context p.1 ∉ acc2.map Prod.fst := by
        rw [← hk]; exact hk0
      rw [insert_pair_cons_eq k0 g0 acc2 p.1 p.2 hk hnot]
      simp only [merge_acc]
      congr 1
      · rw [nodes_of_cons, if_pos hk.symm]
        simp
      · congr 1
        simp [List.filter_cons, hk.symm]
    · have hpk : copy_ast_without_context p.1 ≠ k0 := fun hc => hk hc.symm
      rw [insert_pair_cons_ne k0 g0 acc2 p.1 p.2 hk]
      simp only [merge_acc]
      congr 1
      · rw [nodes_of_cons, if_neg hpk]
      · rw [show (p :: ps).filter
              (fun q => !decide (copy_ast_without_context q.1 = k0)) =
            p :: ps.filter (fun q => !decide (copy_ast_without_context q.1 = k0)) from by
          simp [List.filter_cons, hpk]]
        exact ih p (ps.filter _) hnd2

theorem foldl_insert_eq_merge : ∀ (ps : List (Expr × Val))
    (acc : List (ExprS × (List Expr × Val))), (acc.map Prod.fst).Nodup →
    ps.foldl (fun a p => insert_pair a p.1 p.2) acc = merge_acc acc ps := by
  intro ps
  induction ps with
  | nil => intro acc _; simp [merge_acc_nil]
  | cons p ps ih =>
    intro acc h
    simp only [List.foldl_cons]
    rw [ih _ (insert_pair_nodup acc p.1 p.2 h)]
    exact merge_insert acc p ps h

theorem group_expressions_eq_fresh (ps : List (Expr × Val)) :
    group_expressions ps = (fresh_groups ps).map (fun e => e.2) := by
  unfold group_expressions
  rw [foldl_insert_eq_merge ps [] (by simp)]
  rfl

end PureEval

namespace PureEval

theorem mem_nodes_of (x : Expr) (k : ExprS) (ps : List (Expr × Val)) :
    x ∈ nodes_of k ps ↔ (∃ w, (x, w) ∈ ps) ∧ copy_ast_without_context x = k := by
  simp only [nodes_of, List.mem_map, List.mem_filter, decide_eq_true_eq]
  constructor
  · rintro ⟨q, ⟨hq, hkq⟩, rfl⟩
    exact ⟨⟨q.2, hq⟩, hkq⟩
  · rintro ⟨⟨w, hw⟩, hk⟩
    exact ⟨(x, w), ⟨hw, hk⟩, rfl⟩

theorem fresh_groups_key (ps : List (Expr × Val)) :
    ∀ kg ∈ fresh_groups ps, ∀ x ∈ kg.2.1, copy_ast_without_context x = kg.1 := by
  induction ps using fresh_groups.induct with
  | case1 =>
    intro kg h
    simp [fresh_groups] at h
  | case2 p ps ih =>
    intro kg hkg x hx
    simp only [fresh_groups] at hkg
    rcases List.mem_cons.mp hkg with rfl | h2
    · rcases List.mem_cons.mp hx with rfl | hx2
      · rfl
      · exact ((mem_nodes_of x _ ps).mp hx2).2
    · exact ih kg h2 x hx

end PureEval

namespace PureEval

theorem fresh_groups_char (ps : List (Expr × Val)) :
    ∀ kg ∈ fresh_groups ps,
      kg.2.1 = nodes_of kg.1 ps ∧
        ∃ p ∈ ps, copy_ast_without_context p.1 = kg.1 ∧ kg.2.2 = p.2 := by
  induction ps using fresh_groups.induct with
  | case1 =>
    intro kg h
    simp [fresh_groups] at h
  | case2 p ps ih =>
    intro kg hkg
    simp only [fresh_groups] at hkg
    rcases List.mem_cons.mp hkg with rfl | h2
    · refine ⟨?_, p, List.mem_cons_self p ps, rfl, rfl⟩
      rw [nodes_of_cons, if_pos rfl]
    · obtain ⟨hns, q, hq, hkq, hv⟩ := ih kg h2
      have hqf := List.mem_filter.mp hq
      have hqp : copy_ast_without_context q.1 ≠ copy_ast_without_context p.1 := by
        have := hqf.2
        simpa using this
      have hkne : kg.1 ≠ copy_ast_without_context p.1 := by
        rw [← hkq]; exact hqp
      refine ⟨?_, q, List.mem_cons_of_mem p hqf.1, hkq, hv⟩
      rw [hns, nodes_of_filter_ne _ _ hkne, nodes_of_cons,
        if_neg (fun hc => hkne hc.symm)]

theorem fresh_groups_covers (ps : List (Expr × Val)) :
    ∀ p ∈ ps, ∃ kg ∈ fresh_groups ps, kg.1 = copy_ast_without_context p.1 := by
  induction ps using fresh_groups.induct with
  | case1 => simp
  | case2 q ps ih =>
    intro p hp
    simp only [fresh_groups]
    rcases List.mem_cons.mp hp with rfl | h2
    · exact ⟨_, List.mem_cons_self _ _, rfl⟩
    · by_cases hk : copy_ast_without_context p.1 = copy_ast_without_context q.1
      · exact ⟨_, List.mem_cons_self _ _, hk.symm⟩
      · have hpf : p ∈ ps.filter
            (fun r => !decide (copy_ast_without_context r.1 =
              copy_ast_without_context q.1)) :=
          List.mem_filter.mpr ⟨h2, by simp [hk]⟩
        obtain ⟨kg, hkg, hk2⟩ := ih p hpf
        exact ⟨kg, List.mem_cons_of_mem _ hkg, hk2⟩

end PureEval

namespace PureEval

/-- Two nodes land in the same group of a grouping result. -/
def same_group (gs : List (List Expr × Val)) (x y : Expr) : Prop :=
  ∃ g ∈ gs, x ∈ g.1 ∧ y ∈ g.1

theorem same_group_key (ps : List (Expr × Val)) (x y : Expr)
    (h : same_group (group_expressions ps) x y) :
    copy_ast_without_context x = copy_ast_without_context y := by
  obtain ⟨g, hg, hx, hy⟩ := h
  rw [group_expressions_eq_fresh] at hg
  obtain ⟨kg, hkg, rfl⟩ := List.mem_map.mp hg
  rw [fresh_groups_key ps kg hkg x hx, fresh_groups_key ps kg hkg y hy]

theorem same_group_of_key (ps : List (Expr × Val)) (x y : Expr) (vx vy : Val)
    (hx : (x, vx) ∈ ps) (hy : (y, vy) ∈ ps)
    (hk : copy_ast_without_context x = copy_ast_without_context y) :
    same_group (group_expressions ps) x y := by
  obtain ⟨kg, hkg, hkey⟩ := fresh_groups_covers ps (x, vx) hx
  have hchar := fresh_groups_char ps kg hkg
  refine ⟨kg.2, ?_, ?_, ?_⟩
  · rw [group_expressions_eq_fresh]
    exact List.mem_map_of_mem _ hkg
  · rw [hchar.1, mem_nodes_of]
    exact ⟨⟨vx, hx⟩, hkey.symm⟩
  · rw [hchar.1, mem_nodes_of]
    refine ⟨⟨vy, hy⟩, ?_⟩
    rw [← hk]
    exact hkey.symm

theorem group_rep (ps : List (Expr × Val)) (g : List Expr × Val)
    (hg : g ∈ group_expressions ps) :
    ∃ k, g.1 = nodes_of k ps ∧
      ∃ p ∈ ps, copy_ast_without_context p.1 = k ∧ g.2 = p.2 := by
  rw [group_expressions_eq_fresh] at hg
  obtain ⟨kg, hkg, rfl⟩ := List.mem_map.mp hg
  obtain ⟨hns, p, hp, hkp, hv⟩ := fresh_groups_char ps kg hkg
  exact ⟨kg.1, hns, p, hp, hkp, hv⟩

/-- First occurrence of x[0] in x[0] + x[x[0]] (its own uids). -/
def ex_a1 : Expr :=
  .subscript (.nameE "x" .load 1) (.constant (.intL 0) 2) .load 3

/-- Second occurrence of x[0], textually distinct (different uids). -/
def ex_a2 : Expr :=
  .subscript (.nameE "x" .load 4) (.constant (.intL 0) 5) .load 6

/-- The x[x[0]] node of x[0] + x[x[0]]. -/
def ex_b : Expr :=
  .subscript (.nameE "x" .load 7)
    (.subscript (.nameE "x" .load 8) (.constant (.intL 0) 9) .load 10) .load 11

/-- The evaluated pairs of x[0] + x[x[0]]: both x[0] occurrences worth 1,
the x[x[0]] node worth 2. -/
def ex_pairs : List (Expr × Val) :=
  [(ex_a1, .intV 1), (ex_b, .intV 2), (ex_a2, .intV 1)]

end PureEval

namespace PureEval

theorem ex_key_eq :
    copy_ast_without_context ex_a1 = copy_ast_without_context ex_a2 := by
  simp [ex_a1, ex_a2, copy_ast_without_context]

theorem ex_key_ne :
    copy_ast_without_context ex_a1 ≠ copy_ast_without_context ex_b := by
  simp [ex_a1, ex_b, copy_ast_without_context]

end PureEval

namespace PureEval

/-- C9: group_expressions partitions its input pairs by structural
equivalence.  Two nodes of the input land in the same group exactly when
their copies without context (kind and all child fields, role annotations
and positions dropped) coincide; every group is the full list, in input
order, of the input nodes with its key, and its value is the value of one
of its member pairs; and on the pairs of x[0] + x[x[0]] the two textually
distinct x[0] occurrences share a group while x[x[0]] does not join them,
with every group holding an x[0] occurrence valued 1 and every group
holding the x[x[0]] node valued 2. -/
theorem C9_grouping (ps : List (Expr × Val)) (x y : Expr) (vx vy : Val)
    (hx : (x, vx) ∈ ps) (hy : (y, vy) ∈ ps) :
    (same_group (group_expressions ps) x y ↔
      copy_ast_without_context x = copy_ast_without_context y) ∧
    (∀ g ∈ group_expressions ps, ∃ k, g.1 = nodes_of k ps ∧
      ∃ p ∈ ps, copy_ast_without_context p.1 = k ∧ g.2 = p.2) ∧
    (same_group (group_expressions ex_pairs) ex_a1 ex_a2 ∧
      ¬ same_group (group_expressions ex_pairs) ex_a1 ex_b ∧
      ∀ g ∈ group_expressions ex_pairs,
        (ex_a1 ∈ g.1 → g.2 = Val.intV 1) ∧ (ex_b ∈ g.1 → g.2 = Val.intV 2)) := by
  refine ⟨⟨fun h => same_group_key ps x y h,
      fun h => same_group_of_key ps x y vx vy hx hy h⟩,
    fun g hg => group_rep ps g hg, ?_, ?_, ?_⟩
  · exact same_group_of_key ex_pairs ex_a1 ex_a2 (.intV 1) (.intV 1)
      (by simp [ex_pairs]) (by simp [ex_pairs]) ex_key_eq
  · intro h
    exact ex_key_ne (same_group_key ex_pairs ex_a1 ex_b h)
  · intro g hg
    obtain ⟨k, hns, p, hp, hkp, hv⟩ := group_rep ex_pairs g hg
    have hp3 : p = (ex_a1, Val.intV 1) ∨ p = (ex_b, Val.intV 2) ∨
        p = (ex_a2, Val.intV 1) := by
      simpa [ex_pairs] using hp
    constructor
    · intro h1
      have hk1 : copy_ast_without_context ex_a1 = k := by
        rw [hns, mem_nodes_of] at h1
        exact h1.2
      rcases hp3 with rfl | rfl | rfl
      · exact hv
      · exact absurd (hk1.trans hkp.symm) ex_key_ne
      · exact hv
    · intro hb
      have hkb : copy_ast_without_context ex_b = k := by
        rw [hns, mem_nodes_of] at hb
        exact hb.2
      rcases hp3 with rfl | rfl | rfl
      · exact absurd (hkp.trans hkb.symm) ex_key_ne
      · exact hv
      · exact absurd (ex_key_eq.trans (hkp.trans hkb.symm)) ex_key_ne

/-- C9 witness: at the pairs of x[0] + x[x[0]], the two x[0] occurrences
share a group, x[x[0]] stays apart, and the group values are 1 and 2. -/
theorem C9_witness :
    same_group (group_expressions ex_pairs) ex_a1 ex_a2 ∧
    ¬ same_group (group_expressions ex_pairs) ex_a1 ex_b ∧
    ∀ g ∈ group_expressions ex_pairs,
      (ex_a1 ∈ g.1 → g.2 = Val.intV 1) ∧ (ex_b ∈ g.1 → g.2 = Val.intV 2) :=
  (C9_grouping ex_pairs ex_a1 ex_a2 (Val.intV 1) (Val.intV 1)
    (by simp [ex_pairs]) (by simp [ex_pairs])).2.2

end PureEval
